import Mathlib

/-!
Verification of the format-dispatch and data-normalization core of the
`arboard` clipboard library (rustdesk fork).  The Rust sources under
`src/platform/linux/url.rs`, `src/platform/linux/wayland.rs`,
`src/platform/osx.rs` and `src/common.rs` are shallowly embedded here.

Rust `&str` / `String` / `Vec<u8>` payloads are modelled as lists of bytes
(`RStr`), since the URI codec and the UTF-8 checks operate on the UTF-8
byte representation.  Native-format identifiers (MIME/UTI names) are never
inspected byte-wise, so they stay Lean `String`s.  The opaque native
sessions (the wl-clipboard transport and the NSPasteboard) are modelled as
explicit environment records supplying the outcome of each native call.
-/

/-- Rust byte-string payloads (`&str`, `String`, `Vec<u8>`, `&[u8]`) as lists
of byte values. -/
abbrev RStr := List Nat

/-- Modelled from the spec: the `Error` enum is declared in `common.rs` of the
full crate, outside the given sources; spec §7 lists its kinds
(`ContentNotAvailable`, `ClipboardNotSupported`, `ConversionFailure`,
`Unknown{description}`), all of which are constructed by name in the given
platform sources. -/
inductive Error where
  | ContentNotAvailable
  | ClipboardNotSupported
  | ConversionFailure
  | Unknown (description : String)
deriving DecidableEq, Repr

/-- Modelled from the spec: `into_unknown` is declared outside the given
sources.  Its call sites sit beside inline `Error::Unknown { description }`
constructions for the same class of native failures
(`wayland.rs` line 159 vs. lines 52/68), so it wraps a diagnostic message in
the opaque `Unknown` kind; the formatted error text appended by the real
function is dropped, keeping only the fixed message. -/
def intoUnknown (message : String) : Error :=
  Error.Unknown message

/-- Modelled from the spec: the `ClipboardFormat` request descriptor
(spec §3), declared in the crate's full `common.rs` which is outside the
given sources; every variant below is matched by name in
`wayland.rs::get_formats` and `osx.rs::Get::formats`. -/
inductive ClipboardFormat where
  | Text
  | Html
  | Rtf
  | ImageRgba
  | ImagePng
  | ImageSvg
  | FileUrl
  | Special (name : String)
deriving DecidableEq, Repr

/-- Modelled from the spec: the `ImageData::Rgba` payload
(`width`, `height`, row-major RGBA `bytes`), spec §3; the struct itself is
declared outside the given sources and used as `ImageRgba` by both platform
adapters. -/
structure ImageRgba where
  width : Nat
  height : Nat
  bytes : RStr
deriving DecidableEq, Repr

/-- Modelled from the spec: the `ImageData` sum type (spec §3:
`Rgba | Png(bytes) | Svg(string)`), declared outside the given sources;
the given adapters construct all three variants (`ImageData::Rgba(..)`,
`ImageData::png(..)`, `ImageData::Svg(..)`). -/
inductive ImageData where
  | Rgba (image : ImageRgba)
  | Png (bytes : RStr)
  | Svg (text : RStr)
deriving DecidableEq, Repr

/-- The `ImageData::png` helper constructor used by both adapters: its call
sites (`Ok(ImageData::png(buffer.into()))`) show it is an infallible wrapper
into the `Png` variant. -/
def ImageData.png (bytes : RStr) : ImageData :=
  ImageData.Png bytes

/-- The `ImageData::svg` helper constructor: infallible wrapper into `Svg`. -/
def ImageData.svg (text : RStr) : ImageData :=
  ImageData.Svg text

/-- The `ImageData::rgba` helper constructor used by `osx.rs::image_tiff`:
its call site `Ok(ImageData::rgba(w, h, bytes))` returns `ImageData`
directly (not a `Result`), so it is an infallible wrapper into `Rgba`. -/
def ImageData.rgba (width height : Nat) (bytes : RStr) : ImageData :=
  ImageData.Rgba ⟨width, height, bytes⟩

/-- Modelled from the spec: the `ClipboardData` tagged value (spec §3),
declared outside the given sources; every variant below is constructed or
matched by name in the given platform sources. -/
inductive ClipboardData where
  | Text (text : RStr)
  | Html (html : RStr)
  | Rtf (rtf : RStr)
  | Image (image : ImageData)
  | FileUrl (urls : List RStr)
  | Special (pair : String × RStr)
  | None
deriving DecidableEq, Repr

/-- The `ImageData` struct of the given `src/common.rs` (lines 50–54): a
plain record with public `width`, `height` and `bytes` fields and no
validating constructor (its only methods, `into_owned_bytes` and
`to_cloned`, copy the fields unchanged). -/
structure CommonImageData where
  width : Nat
  height : Nat
  bytes : RStr
deriving DecidableEq, Repr

/-! ## UTF-8 validity

`String::from_utf8` / `decode_utf8` in the sources succeed exactly on valid
UTF-8 byte sequences; this is the standard byte-level validity table. -/

/-- A UTF-8 continuation byte (`0x80..=0xBF`). -/
def utf8Cont (b : Nat) : Bool :=
  0x80 ≤ b && b ≤ 0xBF

/-- UTF-8 validity of a byte sequence (the condition under which Rust's
`String::from_utf8` and `decode_utf8` succeed). -/
def utf8Valid : List Nat → Bool
  | [] => true
  | b :: rest =>
    if b ≤ 0x7F then utf8Valid rest
    else
      match rest with
      | [] => false
      | c1 :: r1 =>
        if 0xC2 ≤ b && b ≤ 0xDF then utf8Cont c1 && utf8Valid r1
        else
          match r1 with
          | [] => false
          | c2 :: r2 =>
            if b = 0xE0 then (0xA0 ≤ c1 && c1 ≤ 0xBF) && utf8Cont c2 && utf8Valid r2
            else if (0xE1 ≤ b && b ≤ 0xEC) || b = 0xEE || b = 0xEF then
              utf8Cont c1 && utf8Cont c2 && utf8Valid r2
            else if b = 0xED then (0x80 ≤ c1 && c1 ≤ 0x9F) && utf8Cont c2 && utf8Valid r2
            else
              match r2 with
              | [] => false
              | c3 :: r3 =>
                if b = 0xF0 then
                  (0x90 ≤ c1 && c1 ≤ 0xBF) && utf8Cont c2 && utf8Cont c3 && utf8Valid r3
                else if 0xF1 ≤ b && b ≤ 0xF3 then
                  utf8Cont c1 && utf8Cont c2 && utf8Cont c3 && utf8Valid r3
                else if b = 0xF4 then
                  (0x80 ≤ c1 && c1 ≤ 0x8F) && utf8Cont c2 && utf8Cont c3 && utf8Valid r3
                else false

/-! ## The URI-list codec (`src/platform/linux/url.rs`)

`ENCODE_SET` is `percent_encoding::CONTROLS.add(b' ').remove(b'/')`; the
`percent_encoding` crate always escapes non-ASCII bytes in addition to the
set.  Decoding follows `percent_decode_str`: a `%` followed by two hex
digits is decoded, any other `%` is passed through unchanged. -/

/-- `percent_encoding::CONTROLS`: the C0 controls and DEL. -/
def isC0Control (b : Nat) : Bool :=
  b < 0x20 || b = 0x7F

/-- Membership in `ENCODE_SET = CONTROLS.add(b' ').remove(b'/')`
(`url.rs` line 7).  `/` (0x2F) is not a control, so the `remove` is kept
only for fidelity. -/
def inEncodeSet (b : Nat) : Bool :=
  (isC0Control b || b = 0x20) && !(b = 0x2F)

/-- A byte is escaped by `percent_encode` iff it is non-ASCII or in the set. -/
def shouldEscape (b : Nat) : Bool :=
  0x80 ≤ b || inEncodeSet b

/-- Upper-case hex digit, as emitted by the `percent_encoding` crate. -/
def hexUpper (n : Nat) : Nat :=
  if n < 10 then 0x30 + n else 0x41 + (n - 10)

/-- Encoding of one byte: `%XY` when escaped, the byte itself otherwise. -/
def encodeByte (b : Nat) : RStr :=
  if shouldEscape b then [0x25, hexUpper (b / 16), hexUpper (b % 16)] else [b]

/-- `percent_encoding::percent_encode(bytes, &ENCODE_SET)`. -/
def percentEncode (bs : RStr) : RStr :=
  bs.flatMap encodeByte

/-- Hex digit acceptable to the decoder (`to_digit(16)`): `0-9a-fA-F`. -/
def isHexDigit (b : Nat) : Bool :=
  (0x30 ≤ b && b ≤ 0x39) || (0x41 ≤ b && b ≤ 0x46) || (0x61 ≤ b && b ≤ 0x66)

/-- Value of a hex digit byte. -/
def hexVal (b : Nat) : Nat :=
  if b ≤ 0x39 then b - 0x30 else if b ≤ 0x46 then b - 0x41 + 10 else b - 0x61 + 10

/-- `percent_encoding::percent_decode`: `%` followed by two hex digits is
decoded to a byte; otherwise the `%` passes through and scanning resumes at
the next byte (the crate leaves the iterator unadvanced on failure). -/
def percentDecode : RStr → RStr
  | [] => []
  | 0x25 :: h :: l :: rest =>
    if isHexDigit h && isHexDigit l then
      (hexVal h * 16 + hexVal l) :: percentDecode rest
    else 0x25 :: percentDecode (h :: l :: rest)
  | b :: rest => b :: percentDecode rest

/-- The scheme token `"file://"` as bytes. -/
def fileScheme : RStr :=
  [0x66, 0x69, 0x6C, 0x65, 0x3A, 0x2F, 0x2F]

/-- Byte-level `str::starts_with` for a byte-string pattern. -/
def startsWith : RStr → RStr → Bool
  | [], _ => true
  | _ :: _, [] => false
  | a :: pat, b :: s => a = b && startsWith pat s

/-- `encode_path_to_uri` (`url.rs` lines 9–12): percent-encode the path and
prepend the scheme token. -/
def encode_path_to_uri (path : RStr) : RStr :=
  fileScheme ++ percentEncode path

/-- A successful `startsWith` needs the pattern to fit. -/
theorem startsWith_le_length :
    ∀ (pat s : RStr), startsWith pat s = true → pat.length ≤ s.length
  | [], s, _ => by simp
  | a :: pat, [], h => by simp [startsWith] at h
  | a :: pat, b :: s, h => by
    simp only [startsWith, Bool.and_eq_true, decide_eq_true_eq] at h
    have := startsWith_le_length pat s h.2
    simp only [List.length_cons]
    omega

/-- `str::trim_start_matches("file://")`: strips the scheme token
(`0x66 0x69 0x6C 0x65 0x3A 0x2F 0x2F`) from the front repeatedly, as long
as it is a prefix. -/
def trimFileScheme : RStr → RStr
  | 0x66 :: 0x69 :: 0x6C :: 0x65 :: 0x3A :: 0x2F :: 0x2F :: rest => trimFileScheme rest
  | s => s

/-- `parse_uri_to_path` (`url.rs` lines 14–20): strip the scheme token,
percent-decode, and require the decoded bytes to be valid UTF-8; on invalid
UTF-8 the error is produced by `into_unknown("failed to decode path", e)`. -/
def parse_uri_to_path (encoded_uri : RStr) : Except Error RStr :=
  let encoded_path := trimFileScheme encoded_uri
  let decoded := percentDecode encoded_path
  if utf8Valid decoded then Except.ok decoded
  else Except.error (intoUnknown "failed to decode path")

/-- One trailing `\r` is stripped from each line by Rust's `str::lines`. -/
def stripTrailingCr (l : RStr) : RStr :=
  if l.getLast? = some 0x0D then l.dropLast else l

/-- Rust `str::lines` at byte level: split at `\n`, drop a final empty
segment (a trailing newline ends the last line rather than opening a new
one), then strip one trailing `\r` per line. -/
def rustLines (s : RStr) : List RStr :=
  let parts := s.splitOn 0x0A
  let parts := if parts.getLast? = some [] then parts.dropLast else parts
  parts.map stripTrailingCr

/-- The loop body of `parse_uri_list` (`url.rs` lines 36–47) over the list
of lines: lines not starting with the scheme token are skipped; each
qualifying line is decoded by `parse_uri_to_path`, whose error aborts the
whole parse (the `?` operator). -/
def parse_uri_list_lines : List RStr → Except Error (List RStr)
  | [] => Except.ok []
  | line :: rest =>
    if startsWith fileScheme line then
      match parse_uri_to_path line with
      | Except.error e => Except.error e
      | Except.ok decoded =>
        match parse_uri_list_lines rest with
        | Except.error e => Except.error e
        | Except.ok list => Except.ok (decoded :: list)
    else parse_uri_list_lines rest

/-- `parse_uri_list` (`url.rs` lines 36–47). -/
def parse_uri_list (text : RStr) : Except Error (List RStr) :=
  parse_uri_list_lines (rustLines text)

/-- The wire text for a `FileUrl` write
(`wayland.rs::url_list_to_mime_source`, lines 188–195): encode each path and
join the entries with `\n`. -/
def encode_uri_list (paths : List RStr) : RStr :=
  List.intercalate [0x0A] (paths.map encode_path_to_uri)

/-! ## Round-trip lemmas for the URI codec -/

/-- `hexUpper` of a nibble is a hex digit. -/
theorem isHexDigit_hexUpper (n : Nat) (h : n < 16) : isHexDigit (hexUpper n) = true := by
  unfold hexUpper isHexDigit
  split <;> simp <;> omega

/-- `hexVal` inverts `hexUpper` on nibbles. -/
theorem hexVal_hexUpper (n : Nat) (h : n < 16) : hexVal (hexUpper n) = n := by
  unfold hexUpper hexVal
  split <;> (repeat' split) <;> omega

/-- Unfolding `percentDecode` at a non-`%` head byte. -/
theorem percentDecode_cons_ne (b : Nat) (rest : RStr) (h : b ≠ 0x25) :
    percentDecode (b :: rest) = b :: percentDecode rest := by
  rw [percentDecode.eq_def]
  simp [h]

/-- Unfolding `percentDecode` at a valid escape triple. -/
theorem percentDecode_escape (h l : Nat) (rest : RStr)
    (hh : isHexDigit h = true) (hl : isHexDigit l = true) :
    percentDecode (0x25 :: h :: l :: rest) = (hexVal h * 16 + hexVal l) :: percentDecode rest := by
  simp [percentDecode, hh, hl]

/-- Decoding an encoded byte at the head of a stream peels it back off. -/
theorem percentDecode_encodeByte (b : Nat) (hb : b < 256) (h25 : b ≠ 0x25)
    (suffix : RStr) :
    percentDecode (encodeByte b ++ suffix) = b :: percentDecode suffix := by
  unfold encodeByte
  by_cases hesc : shouldEscape b = true
  · have hdiv : b / 16 < 16 := by omega
    have hmod : b % 16 < 16 := Nat.mod_lt _ (by omega)
    simp only [hesc, if_true, List.cons_append, List.nil_append]
    rw [percentDecode_escape _ _ _ (isHexDigit_hexUpper _ hdiv) (isHexDigit_hexUpper _ hmod)]
    rw [hexVal_hexUpper _ hdiv, hexVal_hexUpper _ hmod]
    have := Nat.div_add_mod b 16
    congr 1
    omega
  · simp only [Bool.not_eq_true] at hesc
    simp only [hesc, Bool.false_eq_true, if_false, List.cons_append, List.nil_append]
    exact percentDecode_cons_ne b suffix h25

/-- Percent-decoding inverts percent-encoding on byte strings free of the
(unescaped) `%` byte. -/
theorem percentDecode_percentEncode (p : RStr)
    (h : ∀ b ∈ p, b < 256 ∧ b ≠ 0x25) :
    percentDecode (percentEncode p) = p := by
  induction p with
  | nil => simp [percentEncode, percentDecode]
  | cons b rest ih =>
    have hb := h b (List.mem_cons_self b rest)
    have hrest : ∀ x ∈ rest, x < 256 ∧ x ≠ 0x25 := fun x hx => h x (List.mem_cons_of_mem _ hx)
    have hPE : percentEncode (b :: rest) = encodeByte b ++ percentEncode rest := rfl
    rw [hPE, percentDecode_encodeByte b hb.1 hb.2, ih hrest]

/-- `startsWith` holds on an appended copy of the pattern. -/
theorem startsWith_append_self :
    ∀ (pat rest : RStr), startsWith pat (pat ++ rest) = true
  | [], _ => rfl
  | a :: pat, rest => by
    simp [startsWith, startsWith_append_self pat rest]

/-- For a pattern made of unescaped, non-`%` bytes, percent-encoding neither
creates nor destroys the pattern as a prefix. -/
theorem startsWith_percentEncode :
    ∀ (pat p : RStr), (∀ c ∈ pat, shouldEscape c = false ∧ c ≠ 0x25) →
      startsWith pat (percentEncode p) = startsWith pat p
  | [], p, _ => rfl
  | c :: pat, [], _ => rfl
  | c :: pat, b :: p, h => by
    have hc := h c (List.mem_cons_self c pat)
    have hpat : ∀ x ∈ pat, shouldEscape x = false ∧ x ≠ 0x25 :=
      fun x hx => h x (List.mem_cons_of_mem _ hx)
    have hPE : percentEncode (b :: p) = encodeByte b ++ percentEncode p := rfl
    rw [hPE]
    by_cases hesc : shouldEscape b = true
    · have hEb : encodeByte b = [0x25, hexUpper (b / 16), hexUpper (b % 16)] := by
        simp [encodeByte, hesc]
      have hcb : c ≠ b := by
        intro hEq; rw [hEq] at hc; rw [hesc] at hc; exact absurd hc.1 (by simp)
      rw [hEb]
      simp [startsWith, hc.2, hcb]
    · simp only [Bool.not_eq_true] at hesc
      have hEb : encodeByte b = [b] := by
        simp [encodeByte, hesc]
      rw [hEb]
      by_cases hcb : c = b
      · subst hcb
        simp [startsWith, startsWith_percentEncode pat p hpat]
      · simp [startsWith, hcb]

/-- Unfolding `trimFileScheme` when the scheme is not a prefix. -/
theorem trimFileScheme_of_not (s : RStr) (h : startsWith fileScheme s = false) :
    trimFileScheme s = s := by
  rw [trimFileScheme.eq_def]
  split
  · simp [startsWith, fileScheme] at h
  · rfl

/-- `trimFileScheme` strips one prepended scheme token. -/
theorem trimFileScheme_append (s : RStr) :
    trimFileScheme (fileScheme ++ s) = trimFileScheme s :=
  rfl

deriving instance DecidableEq for Except

/-- Bounds of `hexUpper` on nibbles: always an ASCII digit or `A`–`F`. -/
theorem hexUpper_bounds (n : Nat) (h : n < 16) :
    0x30 ≤ hexUpper n ∧ hexUpper n ≤ 0x46 := by
  unfold hexUpper
  split <;> omega

/-- Every byte of a percent-encoded string is printable ASCII: in particular
it is neither a newline nor a carriage return. -/
theorem mem_percentEncode_no_newline (p : RStr) (hp : ∀ b ∈ p, b < 256) :
    ∀ c ∈ percentEncode p, c ≠ 0x0A ∧ c ≠ 0x0D := by
  induction p with
  | nil => intro c hc; simp [percentEncode] at hc
  | cons b rest ih =>
    intro c hc
    have hb : b < 256 := hp b (List.mem_cons_self b rest)
    have hrest : ∀ x ∈ rest, x < 256 := fun x hx => hp x (List.mem_cons_of_mem _ hx)
    have hPE : percentEncode (b :: rest) = encodeByte b ++ percentEncode rest := rfl
    rw [hPE] at hc
    rcases List.mem_append.mp hc with hcl | hcr
    · unfold encodeByte at hcl
      by_cases hesc : shouldEscape b = true
      · rw [if_pos hesc] at hcl
        have h1 := hexUpper_bounds (b / 16) (by omega)
        have h2 := hexUpper_bounds (b % 16) (Nat.mod_lt _ (by omega))
        simp only [List.mem_cons, List.mem_singleton] at hcl
        rcases hcl with rfl | rfl | rfl | h'
        · omega
        · omega
        · omega
        · simp at h'
      · simp only [Bool.not_eq_true] at hesc
        rw [if_neg (by simp [hesc])] at hcl
        simp only [List.mem_singleton] at hcl
        subst hcl
        constructor
        · intro hEq; subst hEq; simp [shouldEscape, inEncodeSet, isC0Control] at hesc
        · intro hEq; subst hEq; simp [shouldEscape, inEncodeSet, isC0Control] at hesc
    · exact ih hrest c hcr

/-- An element that is not in a list cannot be the value of `getLast?`. -/
theorem getLast?_ne_of_not_mem {α : Type} {a : α} {l : List α} (h : a ∉ l) :
    l.getLast? ≠ some a := by
  intro hEq
  have hmem : a ∈ l.getLast? := by rw [hEq]; rfl
  obtain ⟨hne, hEq2⟩ := List.mem_getLast?_eq_getLast hmem
  have : l.getLast hne ∈ l := List.getLast_mem hne
  rw [← hEq2] at this
  exact h this

/-- `rustLines` inverts the `"\n"`-join of nonempty, newline- and
carriage-return-free entries. -/
theorem rustLines_intercalate (ents : List RStr) (hne : ents ≠ [])
    (hnl : ∀ l ∈ ents, 0x0A ∉ l) (hcr : ∀ l ∈ ents, 0x0D ∉ l)
    (hnonempty : ∀ l ∈ ents, l ≠ []) :
    rustLines (List.intercalate [0x0A] ents) = ents := by
  unfold rustLines
  rw [List.splitOn_intercalate ents 0x0A hnl hne]
  have hgl : ents.getLast? ≠ some [] := by
    intro hEq
    have hmem : ([] : RStr) ∈ ents.getLast? := by rw [hEq]; rfl
    obtain ⟨hne2, hEq2⟩ := List.mem_getLast?_eq_getLast hmem
    have hmem2 : ents.getLast hne2 ∈ ents := List.getLast_mem hne2
    rw [← hEq2] at hmem2
    exact hnonempty [] hmem2 rfl
  show List.map stripTrailingCr (if ents.getLast? = some [] then ents.dropLast else ents) = ents
  rw [if_neg hgl]
  have hfix : ∀ l ∈ ents, stripTrailingCr l = l := by
    intro l hl
    unfold stripTrailingCr
    rw [if_neg (getLast?_ne_of_not_mem (hcr l hl))]
  calc ents.map stripTrailingCr = ents.map id := List.map_congr_left hfix
    _ = ents := List.map_id ents

/-- Decoding a single encoded entry, for paths that survive the round trip:
in-range bytes, no raw `%`, not scheme-prefixed, valid UTF-8. -/
theorem parse_uri_to_path_encoded (p : RStr)
    (hp : ∀ b ∈ p, b < 256) (h25 : 0x25 ∉ p)
    (hns : startsWith fileScheme p = false) (hv : utf8Valid p = true) :
    parse_uri_to_path (encode_path_to_uri p) = Except.ok p := by
  have hfs : ∀ c ∈ fileScheme, shouldEscape c = false ∧ c ≠ 0x25 := by decide
  have hns' : startsWith fileScheme (percentEncode p) = false := by
    rw [startsWith_percentEncode fileScheme p hfs]; exact hns
  have htrim : trimFileScheme (fileScheme ++ percentEncode p) = percentEncode p := by
    rw [trimFileScheme_append, trimFileScheme_of_not _ hns']
  have hdec : percentDecode (percentEncode p) = p :=
    percentDecode_percentEncode p (fun b hb => ⟨hp b hb, fun hEq => h25 (hEq ▸ hb)⟩)
  unfold parse_uri_to_path encode_path_to_uri
  simp only [htrim, hdec, hv, if_true]

/-- The scheme token heads every encoded entry. -/
theorem startsWith_encode_path (p : RStr) :
    startsWith fileScheme (encode_path_to_uri p) = true :=
  startsWith_append_self fileScheme (percentEncode p)

/-- `parse_uri_list_lines` over a list of encoded entries recovers the
paths. -/
theorem parse_uri_list_lines_map (L : List RStr)
    (h : ∀ p ∈ L, (∀ b ∈ p, b < 256) ∧ 0x25 ∉ p ∧
      startsWith fileScheme p = false ∧ utf8Valid p = true) :
    parse_uri_list_lines (L.map encode_path_to_uri) = Except.ok L := by
  induction L with
  | nil => rfl
  | cons p rest ih =>
    obtain ⟨hp, h25, hns, hv⟩ := h p (List.mem_cons_self p rest)
    have hrest := fun q hq => h q (List.mem_cons_of_mem _ hq)
    simp only [List.map_cons, parse_uri_list_lines, startsWith_encode_path, if_true]
    rw [parse_uri_to_path_encoded p hp h25 hns hv, ih hrest]

/-- The wire entries produced by encoding contain no newline or carriage
return and are never empty. -/
theorem encode_path_entry_facts (p : RStr) (hp : ∀ b ∈ p, b < 256) :
    0x0A ∉ encode_path_to_uri p ∧ 0x0D ∉ encode_path_to_uri p ∧
      encode_path_to_uri p ≠ [] := by
  have hmem := mem_percentEncode_no_newline p hp
  refine ⟨?_, ?_, by simp [encode_path_to_uri, fileScheme]⟩
  · intro hmem2
    rcases List.mem_append.mp hmem2 with hl | hr
    · simp [fileScheme] at hl
    · exact (hmem _ hr).1 rfl
  · intro hmem2
    rcases List.mem_append.mp hmem2 with hl | hr
    · simp [fileScheme] at hl
    · exact (hmem _ hr).2 rfl

/-- C5 (counterexample): the claimed round-trip `decode(encode(L)) == L`
fails as stated.  The path `"%41"` (bytes `[0x25, 0x34, 0x31]`) contains no
newline and is valid UTF-8 — the claim's only premises — yet the `%` byte is
not in the escape set, so the wire text is `file://%41` and decoding
percent-decodes it to `"A"` (`[0x41]`), not back to `"%41"`. -/
theorem c5_counterexample :
    (0x0A ∉ ([0x25, 0x34, 0x31] : RStr)) ∧
      utf8Valid [0x25, 0x34, 0x31] = true ∧
      parse_uri_list (encode_uri_list [[0x25, 0x34, 0x31]]) = Except.ok [[0x41]] ∧
      ([[0x41]] : List RStr) ≠ [[0x25, 0x34, 0x31]] := by
  decide

/-- C5 (amended): `decode(encode(L)) == L` holds for every sequence of
paths whose members are byte strings (bytes < 256) that contain no literal
newline, are valid UTF-8, contain no `%` byte, and do not themselves begin
with the scheme token `file://` (the `%` exclusion is forced because the
encode set leaves `%` unescaped; the scheme-prefix exclusion because
decoding strips every leading repetition of `file://`). -/
theorem c5_roundtrip_amended (L : List RStr)
    (h : ∀ p ∈ L, (∀ b ∈ p, b < 256) ∧ 0x0A ∉ p ∧ utf8Valid p = true ∧
      0x25 ∉ p ∧ startsWith fileScheme p = false) :
    parse_uri_list (encode_uri_list L) = Except.ok L := by
  cases L with
  | nil => rfl
  | cons p0 rest =>
    have hents : ∀ e ∈ (p0 :: rest).map encode_path_to_uri,
        0x0A ∉ e ∧ 0x0D ∉ e ∧ e ≠ [] := by
      intro e he
      obtain ⟨q, hq, rfl⟩ := List.mem_map.mp he
      exact encode_path_entry_facts q (h q hq).1
    unfold parse_uri_list encode_uri_list
    rw [rustLines_intercalate _ (by simp) (fun l hl => (hents l hl).1)
      (fun l hl => (hents l hl).2.1) (fun l hl => (hents l hl).2.2)]
    exact parse_uri_list_lines_map _ (fun q hq =>
      ⟨(h q hq).1, (h q hq).2.2.2.1, (h q hq).2.2.2.2, (h q hq).2.2.1⟩)

/-- C5 (witness): the amended round trip evaluated on the concrete list
`["a", "/b c"]` (the space is escaped and decoded back). -/
theorem c5_roundtrip_witness :
    parse_uri_list (encode_uri_list [[0x61], [0x2F, 0x62, 0x20, 0x63]]) =
      Except.ok [[0x61], [0x2F, 0x62, 0x20, 0x63]] :=
  c5_roundtrip_amended [[0x61], [0x2F, 0x62, 0x20, 0x63]] (by decide)

/-- Per-line characterization of `parse_uri_list_lines`: non-qualifying
lines are dropped; every qualifying line is scheme-stripped and
percent-decoded; the first qualifying line whose decoded bytes are not
valid UTF-8 aborts the parse with the `Unknown` error produced by
`into_unknown("failed to decode path", ..)`. -/
theorem parse_uri_list_lines_spec (lines : List RStr) :
    ((∀ l ∈ lines.filter (fun l => startsWith fileScheme l),
        utf8Valid (percentDecode (trimFileScheme l)) = true) →
      parse_uri_list_lines lines =
        Except.ok ((lines.filter (fun l => startsWith fileScheme l)).map
          (fun l => percentDecode (trimFileScheme l))))
    ∧ ((∃ l ∈ lines.filter (fun l => startsWith fileScheme l),
        utf8Valid (percentDecode (trimFileScheme l)) = false) →
      parse_uri_list_lines lines = Except.error (Error.Unknown "failed to decode path")) := by
  induction lines with
  | nil =>
    constructor
    · intro _; rfl
    · intro hEx; simp at hEx
  | cons line rest ih =>
    by_cases hq : startsWith fileScheme line = true
    · by_cases hv : utf8Valid (percentDecode (trimFileScheme line)) = true
      · constructor
        · intro hAll
          have hAllRest : ∀ l ∈ rest.filter (fun l => startsWith fileScheme l),
              utf8Valid (percentDecode (trimFileScheme l)) = true := by
            intro l hl
            exact hAll l (by simp [List.filter_cons, hq]; exact Or.inr (by simpa using hl))
          simp only [parse_uri_list_lines, hq, if_true]
          unfold parse_uri_to_path
          simp only [hv, if_true, ih.1 hAllRest]
          simp [List.filter_cons, hq]
        · intro hEx
          have hExRest : ∃ l ∈ rest.filter (fun l => startsWith fileScheme l),
              utf8Valid (percentDecode (trimFileScheme l)) = false := by
            obtain ⟨l, hl, hlv⟩ := hEx
            rw [List.filter_cons, if_pos (by simpa using hq)] at hl
            rcases List.mem_cons.mp hl with rfl | hl'
            · rw [hv] at hlv; cases hlv
            · exact ⟨l, hl', hlv⟩
          simp only [parse_uri_list_lines, hq, if_true]
          unfold parse_uri_to_path
          simp only [hv, if_true, ih.2 hExRest]
      · constructor
        · intro hAll
          exfalso
          have : utf8Valid (percentDecode (trimFileScheme line)) = true :=
            hAll line (by simp [List.filter_cons, hq])
          rw [this] at hv; exact hv rfl
        · intro _
          simp only [parse_uri_list_lines, hq, if_true]
          unfold parse_uri_to_path intoUnknown
          simp only [Bool.not_eq_true] at hv
          simp [hv]
    · have hfilter : (line :: rest).filter (fun l => startsWith fileScheme l) =
          rest.filter (fun l => startsWith fileScheme l) := by
        simp [List.filter_cons, hq]
      constructor
      · intro hAll
        rw [hfilter] at hAll
        simp only [parse_uri_list_lines, hq]
        rw [hfilter]
        simpa using ih.1 hAll
      · intro hEx
        rw [hfilter] at hEx
        simp only [parse_uri_list_lines, hq]
        simpa using ih.2 hEx

/-- C6 (counterexample): a qualifying line whose percent-decoded bytes are
invalid UTF-8 (`file://%FF` decodes to the lone byte `0xFF`) makes
`parse_uri_list` fail with the `Unknown` error kind (via
`into_unknown("failed to decode path", ..)`), not with the claimed
`ConversionFailure` kind. -/
theorem c6_counterexample :
    parse_uri_list [0x66, 0x69, 0x6C, 0x65, 0x3A, 0x2F, 0x2F, 0x25, 0x46, 0x46] =
        Except.error (Error.Unknown "failed to decode path") ∧
      utf8Valid (percentDecode
        (trimFileScheme [0x66, 0x69, 0x6C, 0x65, 0x3A, 0x2F, 0x2F, 0x25, 0x46, 0x46])) = false ∧
      Error.Unknown "failed to decode path" ≠ Error.ConversionFailure :=
  ⟨by decide, by decide, fun h => Error.noConfusion h⟩

/-- C6 (amended): for every input text, URI-list decoding splits it into
lines, silently discards every line that does not begin with the `file://`
scheme token, strips the leading scheme token(s) and percent-decodes the
remainder of each qualifying line, and fails with the `Unknown` error kind
(not `ConversionFailure`) whenever the percent-decoded bytes of any
qualifying line are not valid UTF-8. -/
theorem c6_decode_amended (text : RStr) :
    ((∀ l ∈ (rustLines text).filter (fun l => startsWith fileScheme l),
        utf8Valid (percentDecode (trimFileScheme l)) = true) →
      parse_uri_list text =
        Except.ok (((rustLines text).filter (fun l => startsWith fileScheme l)).map
          (fun l => percentDecode (trimFileScheme l))))
    ∧ ((∃ l ∈ (rustLines text).filter (fun l => startsWith fileScheme l),
        utf8Valid (percentDecode (trimFileScheme l)) = false) →
      parse_uri_list text = Except.error (Error.Unknown "failed to decode path")) :=
  parse_uri_list_lines_spec (rustLines text)

/-- C6 (witness): the amended decode characterization evaluated on the
concrete text `"file://ab\ncd"`: the second line is discarded and the first
is decoded. -/
theorem c6_decode_witness :
    parse_uri_list [0x66, 0x69, 0x6C, 0x65, 0x3A, 0x2F, 0x2F, 0x61, 0x62, 0x0A, 0x63, 0x64] =
      Except.ok [[0x61, 0x62]] := by
  rw [(c6_decode_amended
    [0x66, 0x69, 0x6C, 0x65, 0x3A, 0x2F, 0x2F, 0x61, 0x62, 0x0A, 0x63, 0x64]).1 (by decide)]
  decide

/-- C9 (counterexample): `ImageData` in the given `src/common.rs` is a plain
struct with public fields and no validating constructor; the value
`{ width := 1, height := 1, bytes := [] }` violates
`bytes.len() == width*height*4` yet is constructed without any failure. -/
theorem c9_counterexample :
    (CommonImageData.mk 1 1 []).bytes.length ≠
      (CommonImageData.mk 1 1 []).width * (CommonImageData.mk 1 1 []).height * 4 := by
  decide

/-- C9 (amended): construction of the Rgba image value performs no
validation at all — for every choice of `width`, `height` and `bytes`
(matching or not) a value with exactly those fields can be created, so the
invariant `bytes.len() == width*height*4` is not enforced at construction
time. -/
theorem c9_no_validation_amended (w h : Nat) (b : RStr) :
    ∃ img : CommonImageData, img.width = w ∧ img.height = h ∧ img.bytes = b :=
  ⟨CommonImageData.mk w h b, rfl, rfl, rfl⟩

/-! ## The Wayland backend (`src/platform/linux/wayland.rs`)

The `wl_clipboard_rs` transport is opaque: `get_contents`, `Options::copy`
and `Options::copy_multi` are supplied by an environment record, as are the
two image-codec helpers `encode_as_png` / `decode_from_png` from the linux
module (they are declared outside the given sources).  A successful
`get_contents` hands back a pipe whose `read_to_end` may itself fail, hence
the nested `Except` in the `ok` case. -/

/-- `wl_clipboard_rs` MIME selector: `MimeType::Text` or
`MimeType::Specific(name)`. -/
inductive WlMime where
  | text
  | specific (name : String)
deriving DecidableEq, Repr

/-- `ClipboardType` on the paste/copy side: regular clipboard or primary
selection (`Secondary` is rejected before this point). -/
inductive WlSel where
  | Regular
  | Primary
deriving DecidableEq, Repr

/-- `LinuxClipboardKind` (declared in the linux module, used by
`wayland.rs`); its three kinds appear in both `TryInto` impls. -/
inductive LinuxClipboardKind where
  | Clipboard
  | Primary
  | Secondary
deriving DecidableEq, Repr

/-- Modelled from the spec: `WaitConfig` is declared in the linux module,
outside the given sources; spec §3 `WaitPolicy` gives the two behaviours
(return immediately / block until superseded), and `wayland.rs` only tests
`matches!(wait, WaitConfig::Forever)`. -/
inductive WaitConfig where
  | None
  | Forever
deriving DecidableEq, Repr

/-- Outcome of `get_contents`: a successful open hands back a pipe whose
`read_to_end` yields bytes or an I/O error; the listed `PasteError` cases
are the ones the sources match on. -/
inductive WlPasteResult where
  | ok (pipe : Except String RStr)
  | clipboardEmpty
  | noMimeType
  | primarySelectionUnsupported
  | otherErr (description : String)
deriving DecidableEq, Repr

/-- Outcome of `Options::copy` / `Options::copy_multi`. -/
inductive WlCopyResult where
  | ok
  | primarySelectionUnsupported
  | otherErr (description : String)
deriving DecidableEq, Repr

/-- `MimeSource`: an owned byte buffer offered under one MIME type. -/
structure MimeSource where
  source : RStr
  mime : WlMime
deriving DecidableEq, Repr

/-- The opaque native session for the Wayland adapter. -/
structure WlEnv where
  getContents : WlSel → WlMime → WlPasteResult
  copy : WlSel → Bool → MimeSource → WlCopyResult
  copyMulti : WlSel → Bool → List MimeSource → WlCopyResult
  encodeAsPng : ImageRgba → Except Error RStr
  decodeFromPng : RStr → Except Error ImageRgba

/-- `TryInto<paste::ClipboardType> for LinuxClipboardKind`
(`wayland.rs` lines 35–45): `Secondary` is `ClipboardNotSupported`. -/
def tryIntoPaste : LinuxClipboardKind → Except Error WlSel
  | LinuxClipboardKind.Clipboard => Except.ok WlSel.Regular
  | LinuxClipboardKind.Primary => Except.ok WlSel.Primary
  | LinuxClipboardKind.Secondary => Except.error Error.ClipboardNotSupported

/-- `TryInto<copy::ClipboardType> for LinuxClipboardKind`
(`wayland.rs` lines 23–33). -/
def tryIntoCopy : LinuxClipboardKind → Except Error WlSel
  | LinuxClipboardKind.Clipboard => Except.ok WlSel.Regular
  | LinuxClipboardKind.Primary => Except.ok WlSel.Primary
  | LinuxClipboardKind.Secondary => Except.error Error.ClipboardNotSupported

namespace Wayland

/-- `Clipboard::get_plain` (`wayland.rs` lines 138–161): read one MIME type,
convert the bytes to UTF-8; empty clipboard and missing MIME type are
`ContentNotAvailable`, an unsupported primary selection is
`ClipboardNotSupported`, anything else is `Unknown`. -/
def get_plain (env : WlEnv) (selection : LinuxClipboardKind) (mime : WlMime) :
    Except Error RStr :=
  match tryIntoPaste selection with
  | Except.error e => Except.error e
  | Except.ok sel =>
    match env.getContents sel mime with
    | WlPasteResult.ok (Except.error _) => Except.error (intoUnknown "failed to read pipe")
    | WlPasteResult.ok (Except.ok contents) =>
      if utf8Valid contents then Except.ok contents
      else Except.error (intoUnknown "failed to convert from utf8")
    | WlPasteResult.clipboardEmpty => Except.error Error.ContentNotAvailable
    | WlPasteResult.noMimeType => Except.error Error.ContentNotAvailable
    | WlPasteResult.primarySelectionUnsupported => Except.error Error.ClipboardNotSupported
    | WlPasteResult.otherErr d => Except.error (Error.Unknown d)

/-- `Clipboard::get_text`. -/
def get_text (env : WlEnv) (selection : LinuxClipboardKind) : Except Error RStr :=
  get_plain env selection WlMime.text

/-- `Clipboard::get_rtf`. -/
def get_rtf (env : WlEnv) (selection : LinuxClipboardKind) : Except Error RStr :=
  get_plain env selection (WlMime.specific "text/rtf")

/-- `Clipboard::get_html`. -/
def get_html (env : WlEnv) (selection : LinuxClipboardKind) : Except Error RStr :=
  get_plain env selection (WlMime.specific "text/html")

/-- `Clipboard::get_url_list`. -/
def get_url_list (env : WlEnv) (selection : LinuxClipboardKind) : Except Error RStr :=
  get_plain env selection (WlMime.specific "text/uri-list")

/-- `Clipboard::get_image_rgba` (`wayland.rs` lines 207–230): read the PNG
bytes and decode them to raw RGBA.  Note the catch-all arm: unlike
`get_plain`, an unsupported primary selection lands in `Unknown`. -/
def get_image_rgba (env : WlEnv) (selection : LinuxClipboardKind) :
    Except Error ImageData :=
  match tryIntoPaste selection with
  | Except.error e => Except.error e
  | Except.ok sel =>
    match env.getContents sel (WlMime.specific "image/png") with
    | WlPasteResult.ok (Except.error _) => Except.error (intoUnknown "failed to read pipe")
    | WlPasteResult.ok (Except.ok buffer) =>
      match env.decodeFromPng buffer with
      | Except.error e => Except.error e
      | Except.ok image_data => Except.ok (ImageData.Rgba image_data)
    | WlPasteResult.clipboardEmpty => Except.error Error.ContentNotAvailable
    | WlPasteResult.noMimeType => Except.error Error.ContentNotAvailable
    | WlPasteResult.primarySelectionUnsupported =>
      Except.error (Error.Unknown "PrimarySelectionUnsupported")
    | WlPasteResult.otherErr d => Except.error (Error.Unknown d)

/-- `Clipboard::get_image_png` (`wayland.rs` lines 232–254). -/
def get_image_png (env : WlEnv) (selection : LinuxClipboardKind) :
    Except Error ImageData :=
  match tryIntoPaste selection with
  | Except.error e => Except.error e
  | Except.ok sel =>
    match env.getContents sel (WlMime.specific "image/png") with
    | WlPasteResult.ok (Except.error _) => Except.error (intoUnknown "failed to read pipe")
    | WlPasteResult.ok (Except.ok buffer) => Except.ok (ImageData.png buffer)
    | WlPasteResult.clipboardEmpty => Except.error Error.ContentNotAvailable
    | WlPasteResult.noMimeType => Except.error Error.ContentNotAvailable
    | WlPasteResult.primarySelectionUnsupported =>
      Except.error (Error.Unknown "PrimarySelectionUnsupported")
    | WlPasteResult.otherErr d => Except.error (Error.Unknown d)

/-- `Clipboard::get_image_svg` (`wayland.rs` lines 256–281). -/
def get_image_svg (env : WlEnv) (selection : LinuxClipboardKind) :
    Except Error ImageData :=
  match tryIntoPaste selection with
  | Except.error e => Except.error e
  | Except.ok sel =>
    match env.getContents sel (WlMime.specific "image/svg+xml") with
    | WlPasteResult.ok (Except.error _) => Except.error (intoUnknown "failed to read pipe")
    | WlPasteResult.ok (Except.ok buffer) =>
      if utf8Valid buffer then Except.ok (ImageData.svg buffer)
      else Except.error (intoUnknown "failed to convert from utf8")
    | WlPasteResult.clipboardEmpty => Except.error Error.ContentNotAvailable
    | WlPasteResult.noMimeType => Except.error Error.ContentNotAvailable
    | WlPasteResult.primarySelectionUnsupported =>
      Except.error (Error.Unknown "PrimarySelectionUnsupported")
    | WlPasteResult.otherErr d => Except.error (Error.Unknown d)

/-- `Clipboard::get_special` (`wayland.rs` lines 338–361): raw bytes under a
caller-chosen MIME name. -/
def get_special (env : WlEnv) (format_name : String) (selection : LinuxClipboardKind) :
    Except Error RStr :=
  match tryIntoPaste selection with
  | Except.error e => Except.error e
  | Except.ok sel =>
    match env.getContents sel (WlMime.specific format_name) with
    | WlPasteResult.ok (Except.error _) => Except.error (intoUnknown "failed to read pipe")
    | WlPasteResult.ok (Except.ok buffer) => Except.ok buffer
    | WlPasteResult.clipboardEmpty => Except.error Error.ContentNotAvailable
    | WlPasteResult.noMimeType => Except.error Error.ContentNotAvailable
    | WlPasteResult.primarySelectionUnsupported =>
      Except.error (Error.Unknown "PrimarySelectionUnsupported")
    | WlPasteResult.otherErr d => Except.error (Error.Unknown d)

/-- `Clipboard::get_image` (`wayland.rs` lines 197–205): try SVG; only a
`ContentNotAvailable` outcome falls through to PNG. -/
def get_image (env : WlEnv) (selection : LinuxClipboardKind) : Except Error ImageData :=
  match get_image_svg env selection with
  | Except.error Error.ContentNotAvailable => get_image_png env selection
  | result => result

/-- `Clipboard::set_source` (`wayland.rs` lines 57–73): one native copy with
one MIME source; the foreground flag is `matches!(wait, WaitConfig::Forever)`. -/
def set_source (env : WlEnv) (source : MimeSource) (selection : LinuxClipboardKind)
    (wait : WaitConfig) : Except Error Unit :=
  match tryIntoCopy selection with
  | Except.error e => Except.error e
  | Except.ok sel =>
    match env.copy sel (wait = WaitConfig.Forever) source with
    | WlCopyResult.ok => Except.ok ()
    | WlCopyResult.primarySelectionUnsupported => Except.error Error.ClipboardNotSupported
    | WlCopyResult.otherErr _ => Except.error (intoUnknown "failed to copy clipboard")

/-- `Clipboard::set_multi_source` (`wayland.rs` lines 75–88). -/
def set_multi_source (env : WlEnv) (sources : List MimeSource)
    (selection : LinuxClipboardKind) (wait : WaitConfig) : Except Error Unit :=
  match tryIntoCopy selection with
  | Except.error e => Except.error e
  | Except.ok sel =>
    match env.copyMulti sel (wait = WaitConfig.Forever) sources with
    | WlCopyResult.ok => Except.ok ()
    | WlCopyResult.primarySelectionUnsupported => Except.error Error.ClipboardNotSupported
    | WlCopyResult.otherErr _ => Except.error (intoUnknown "failed to copy multi sources")

/-- `Clipboard::text_to_mime_source`. -/
def text_to_mime_source (text : RStr) : MimeSource :=
  MimeSource.mk text WlMime.text

/-- `Clipboard::rtf_to_mime_source`. -/
def rtf_to_mime_source (rtf : RStr) : MimeSource :=
  MimeSource.mk rtf (WlMime.specific "text/rtf")

/-- `Clipboard::html_to_mime_source`. -/
def html_to_mime_source (html : RStr) : MimeSource :=
  MimeSource.mk html (WlMime.specific "text/html")

/-- `Clipboard::png_to_mime_source`. -/
def png_to_mime_source (png : RStr) : MimeSource :=
  MimeSource.mk png (WlMime.specific "image/png")

/-- `Clipboard::svg_to_mime_source`. -/
def svg_to_mime_source (svg : RStr) : MimeSource :=
  MimeSource.mk svg (WlMime.specific "image/svg+xml")

/-- `Clipboard::special_to_mime_source`. -/
def special_to_mime_source (format_name : String) (data : RStr) : MimeSource :=
  MimeSource.mk data (WlMime.specific format_name)

/-- `Clipboard::url_list_to_mime_source` (`wayland.rs` lines 188–195):
encode every path, join with `\n`, offer as `text/uri-list`. -/
def url_list_to_mime_source (urls : List RStr) : MimeSource :=
  MimeSource.mk (encode_uri_list urls) (WlMime.specific "text/uri-list")

/-- `Clipboard::set_image_rgba` (`wayland.rs` lines 296–304): PNG-encode the
raw buffer first, then offer the PNG bytes. -/
def set_image_rgba (env : WlEnv) (image : ImageRgba) (selection : LinuxClipboardKind)
    (wait : WaitConfig) : Except Error Unit :=
  match env.encodeAsPng image with
  | Except.error e => Except.error e
  | Except.ok png => set_source env (png_to_mime_source png) selection wait

/-- `Clipboard::set_image_png`. -/
def set_image_png (env : WlEnv) (png : RStr) (selection : LinuxClipboardKind)
    (wait : WaitConfig) : Except Error Unit :=
  set_source env (png_to_mime_source png) selection wait

/-- `Clipboard::set_image_svg`. -/
def set_image_svg (env : WlEnv) (svg : RStr) (selection : LinuxClipboardKind)
    (wait : WaitConfig) : Except Error Unit :=
  set_source env (svg_to_mime_source svg) selection wait

/-- `Clipboard::set_image` (`wayland.rs` lines 283–294): dispatch on the
image representation. -/
def set_image (env : WlEnv) (image : ImageData) (selection : LinuxClipboardKind)
    (wait : WaitConfig) : Except Error Unit :=
  match image with
  | ImageData.Rgba image => set_image_rgba env image selection wait
  | ImageData.Png png => set_image_png env png selection wait
  | ImageData.Svg svg => set_image_svg env svg selection wait

/-- The source-building loop of `Clipboard::set_formats`
(`wayland.rs` lines 496–527): each value is translated to a `MimeSource`;
an Rgba image is PNG-encoded first and its encoding error aborts (the `?`);
`ClipboardData::None` (the `_` arm) contributes nothing. -/
def buildSources (env : WlEnv) : List ClipboardData → Except Error (List MimeSource)
  | [] => Except.ok []
  | item :: rest =>
    let head : Except Error (List MimeSource) :=
      match item with
      | ClipboardData.Text text => Except.ok [text_to_mime_source text]
      | ClipboardData.Rtf rtf => Except.ok [rtf_to_mime_source rtf]
      | ClipboardData.Html html => Except.ok [html_to_mime_source html]
      | ClipboardData.Image (ImageData.Rgba image) =>
        match env.encodeAsPng image with
        | Except.error e => Except.error e
        | Except.ok png => Except.ok [png_to_mime_source png]
      | ClipboardData.Image (ImageData.Png png) => Except.ok [png_to_mime_source png]
      | ClipboardData.Image (ImageData.Svg svg) => Except.ok [svg_to_mime_source svg]
      | ClipboardData.FileUrl urls => Except.ok [url_list_to_mime_source urls]
      | ClipboardData.Special (format_name, data) =>
        Except.ok [special_to_mime_source format_name data]
      | ClipboardData.None => Except.ok []
    match head with
    | Except.error e => Except.error e
    | Except.ok hd =>
      match buildSources env rest with
      | Except.error e => Except.error e
      | Except.ok tl => Except.ok (hd ++ tl)

/-- `Clipboard::set_formats` (`wayland.rs` lines 490–529): build all
sources, then issue a single multi-source copy. -/
def set_formats (env : WlEnv) (data : List ClipboardData) (selection : LinuxClipboardKind)
    (wait : WaitConfig) : Except Error Unit :=
  match buildSources env data with
  | Except.error e => Except.error e
  | Except.ok sources => set_multi_source env sources selection wait

/-- One iteration of the `Clipboard::get_formats` loop
(`wayland.rs` lines 388–477), producing the pushed value and the recorded
error (if any) for one format, or aborting the whole call (only the
`FileUrl` arm can abort, through the `?` on `parse_uri_list`). -/
def getFormatsStep (env : WlEnv) (selection : LinuxClipboardKind) :
    ClipboardFormat → Except Error (ClipboardData × Option Error)
  | ClipboardFormat.Text =>
    match get_text env selection with
    | Except.ok text => Except.ok (ClipboardData.Text text, none)
    | Except.error Error.ContentNotAvailable => Except.ok (ClipboardData.None, none)
    | Except.error e => Except.ok (ClipboardData.None, some e)
  | ClipboardFormat.Rtf =>
    match get_rtf env selection with
    | Except.ok rtf => Except.ok (ClipboardData.Rtf rtf, none)
    | Except.error Error.ContentNotAvailable => Except.ok (ClipboardData.None, none)
    | Except.error e => Except.ok (ClipboardData.None, some e)
  | ClipboardFormat.Html =>
    match get_html env selection with
    | Except.ok html => Except.ok (ClipboardData.Html html, none)
    | Except.error Error.ContentNotAvailable => Except.ok (ClipboardData.None, none)
    | Except.error e => Except.ok (ClipboardData.None, some e)
  | ClipboardFormat.ImageRgba =>
    match get_image_rgba env selection with
    | Except.ok image => Except.ok (ClipboardData.Image image, none)
    | Except.error Error.ContentNotAvailable => Except.ok (ClipboardData.None, none)
    | Except.error e => Except.ok (ClipboardData.None, some e)
  | ClipboardFormat.ImagePng =>
    match get_image_png env selection with
    | Except.ok image => Except.ok (ClipboardData.Image image, none)
    | Except.error Error.ContentNotAvailable => Except.ok (ClipboardData.None, none)
    | Except.error e => Except.ok (ClipboardData.None, some e)
  | ClipboardFormat.ImageSvg =>
    match get_image_svg env selection with
    | Except.ok image => Except.ok (ClipboardData.Image image, none)
    | Except.error Error.ContentNotAvailable => Except.ok (ClipboardData.None, none)
    | Except.error e => Except.ok (ClipboardData.None, some e)
  | ClipboardFormat.FileUrl =>
    match get_url_list env selection with
    | Except.ok urls =>
      match parse_uri_list urls with
      | Except.ok list => Except.ok (ClipboardData.FileUrl list, none)
      | Except.error e => Except.error e
    | Except.error Error.ContentNotAvailable => Except.ok (ClipboardData.None, none)
    | Except.error e => Except.ok (ClipboardData.None, some e)
  | ClipboardFormat.Special format_name =>
    match get_special env format_name selection with
    | Except.ok data => Except.ok (ClipboardData.Special (format_name, data), none)
    | Except.error Error.ContentNotAvailable => Except.ok (ClipboardData.None, none)
    | Except.error e => Except.ok (ClipboardData.None, some e)

/-- The `Clipboard::get_formats` loop state after processing a format list:
collected results, the most recently recorded error (`err` is overwritten on
every recorded error, so it holds the last one), and the recorded-error
count. -/
def getFormatsLoop (env : WlEnv) (selection : LinuxClipboardKind) :
    List ClipboardFormat → Except Error (List ClipboardData × Option Error × Nat)
  | [] => Except.ok ([], none, 0)
  | format :: rest =>
    match getFormatsStep env selection format with
    | Except.error e => Except.error e
    | Except.ok (value, recorded) =>
      match getFormatsLoop env selection rest with
      | Except.error e => Except.error e
      | Except.ok (results, err, count) =>
        Except.ok (value :: results,
          (match err with
           | some e => some e
           | none => recorded),
          count + (match recorded with
                   | some _ => 1
                   | none => 0))

/-- `Clipboard::get_formats` (`wayland.rs` lines 380–488): run the loop;
when the recorded-error count equals the request length the (last) recorded
error is surfaced, otherwise the collected results are returned. -/
def get_formats (env : WlEnv) (formats : List ClipboardFormat)
    (selection : LinuxClipboardKind) : Except Error (List ClipboardData) :=
  match getFormatsLoop env selection formats with
  | Except.error e => Except.error e
  | Except.ok (results, err, count) =>
    if count = formats.length then
      match err with
      | some e => Except.error e
      | none => Except.ok results
    else Except.ok results

end Wayland

/-! ## The macOS backend (`src/platform/osx.rs`)

The `NSPasteboard` object graph is opaque: read results and write-call
outcomes come from an environment record.  Writes additionally produce a
trace of the pasteboard-mutating native calls (`clearContents`,
`writeObjects`, `setString_forType`, `setData_forType`) in call order, which
is what the clear-before-write claims are about.  `byte strings are the
`RStr` model of the `NSString`/`NSData` payloads. -/

namespace Osx

/-- `NSPasteboardTypeString` (opaque UTI constant). -/
def NSPasteboardTypeString : String := "public.utf8-plain-text"

/-- `NSPasteboardTypeRTF`. -/
def NSPasteboardTypeRTF : String := "public.rtf"

/-- `NSPasteboardTypeHTML`. -/
def NSPasteboardTypeHTML : String := "public.html"

/-- `NSPasteboardTypePNG`. -/
def NSPasteboardTypePNG : String := "public.png"

/-- `NSPasteboardTypeTIFF`. -/
def NSPasteboardTypeTIFF : String := "public.tiff"

/-- `NSPasteboardTypeFileURL`. -/
def NSPasteboardTypeFileURL : String := "public.file-url"

/-- `NS_PASTEBOARD_TYPE_SVG` (`osx.rs` line 32). -/
def NS_PASTEBOARD_TYPE_SVG : String := "public.svg-image"

/-- One `NSPasteboardItem` as seen by reads: its `stringForType` and
`dataForType` responses. -/
structure PBItem where
  string : String → Option RStr
  data : String → Option RStr

/-- The read-side snapshot of the pasteboard: `pasteboardItems` (which can
error, returning `None`) and the pasteboard-level `stringForType` /
`dataForType`. -/
structure Pasteboard where
  items : Option (List PBItem)
  stringForType : String → Option RStr
  dataForType : String → Option RStr

/-- An object handed to the native write calls: a bare `NSString` (from
`Set::text_`), an `NSImage` built by `image_from_pixels` from a raw RGBA
buffer, or an `NSPasteboardItem` carrying a typed string or typed data. -/
inductive WObj where
  | nsString (s : RStr)
  | image (pixels : RStr) (width height : Nat)
  | itemString (ty : String) (s : RStr)
  | itemData (ty : String) (d : RStr)
deriving DecidableEq, Repr

/-- A pasteboard-mutating native call, with the success flag the native
side reported. -/
inductive Op where
  | clearContents
  | writeObjects (objs : List WObj) (success : Bool)
  | setString (ty : String) (s : RStr) (success : Bool)
  | setData (ty : String) (d : RStr) (success : Bool)
deriving DecidableEq, Repr

/-- The opaque native session for the macOS adapter: read-side snapshot,
the TIFF decoder of the `image` crate, `NSURL` parsing, and the outcome of
each native write call (`dataWithBytes` models whether `NSData` creation
returns null). -/
structure Env where
  pb : Pasteboard
  decodeTiff : RStr → Except String ImageRgba
  urlParse : RStr → Option (Option RStr)
  writeObjects : List WObj → Bool
  setString : String → RStr → Bool
  setData : String → RStr → Bool
  dataWithBytes : RStr → Bool

/-- `image_from_pixels` (`osx.rs` lines 45–104): builds an `NSImage` from
the raw pixel buffer; its body ends in `Ok(image)` unconditionally, so the
`Result` in its signature never carries an error. -/
def image_from_pixels (pixels : RStr) (width height : Nat) : Except String WObj :=
  Except.ok (WObj.image pixels width height)

/-- The macOS-local `url_encode::ENCODE_SET`
(`osx.rs` line 36): `CONTROLS.add(b' ').add(b'-').add(b'%')`. -/
def osxInEncodeSet (b : Nat) : Bool :=
  isC0Control b || b = 0x20 || b = 0x2D || b = 0x25

/-- Escape test for the macOS encoder (non-ASCII always escapes). -/
def osxShouldEscape (b : Nat) : Bool :=
  0x80 ≤ b || osxInEncodeSet b

/-- Encoding of one byte under the macOS set. -/
def osxEncodeByte (b : Nat) : RStr :=
  if osxShouldEscape b then [0x25, hexUpper (b / 16), hexUpper (b % 16)] else [b]

/-- `url_encode::encode_path_to_uri` (`osx.rs` lines 38–41). -/
def encode_path_to_uri (path : RStr) : RStr :=
  fileScheme ++ path.flatMap osxEncodeByte

namespace Get

/-- `Get::plain` (`osx.rs` lines 215–237): iterate `pasteboardItems`, return
the first item's string of the requested type; a null item list is an
`Unknown` error, no match is `ContentNotAvailable`. -/
def plain (env : Env) (ty : String) : Except Error RStr :=
  match env.pb.items with
  | none => Except.error (Error.Unknown "NSPasteboard#pasteboardItems errored")
  | some contents =>
    match contents.findSome? (fun it => it.string ty) with
    | some s => Except.ok s
    | none => Except.error Error.ContentNotAvailable

/-- `Get::text`. -/
def text (env : Env) : Except Error RStr :=
  plain env NSPasteboardTypeString

/-- `Get::rtf`. -/
def rtf (env : Env) : Except Error RStr :=
  plain env NSPasteboardTypeRTF

/-- `Get::html`. -/
def html (env : Env) : Except Error RStr :=
  plain env NSPasteboardTypeHTML

/-- `Get::image_tiff` (`osx.rs` lines 250–270): TIFF data decoded to raw
RGBA; missing data is `ContentNotAvailable`, a decode failure maps through
`into_unknown`. -/
def image_tiff (env : Env) : Except Error ImageData :=
  match env.pb.dataForType NSPasteboardTypeTIFF with
  | none => Except.error Error.ContentNotAvailable
  | some image_data =>
    match env.decodeTiff image_data with
    | Except.error _ => Except.error (intoUnknown "failed to decode tiff")
    | Except.ok rgba => Except.ok (ImageData.rgba rgba.width rgba.height rgba.bytes)

/-- `Get::image_png` (`osx.rs` lines 272–278). -/
def image_png (env : Env) : Except Error ImageData :=
  match env.pb.dataForType NSPasteboardTypePNG with
  | none => Except.error Error.ContentNotAvailable
  | some image_data => Except.ok (ImageData.png image_data)

/-- `Get::image_svg` (`osx.rs` lines 280–288). -/
def image_svg (env : Env) : Except Error ImageData :=
  match env.pb.stringForType NS_PASTEBOARD_TYPE_SVG with
  | none => Except.error Error.ContentNotAvailable
  | some image_data => Except.ok (ImageData.Svg image_data)

/-- `Get::special` (`osx.rs` lines 290–307). -/
def special (env : Env) (format_name : String) : Except Error RStr :=
  match env.pb.items with
  | none => Except.error (Error.Unknown "NSPasteboard#pasteboardItems errored")
  | some contents =>
    match contents.findSome? (fun it => it.data format_name) with
    | some d => Except.ok d
    | none => Except.error Error.ContentNotAvailable

/-- `Get::image` (`osx.rs` lines 239–248): SVG, then (only on
`ContentNotAvailable`) PNG, then (only on `ContentNotAvailable`) TIFF. -/
def image (env : Env) : Except Error ImageData :=
  match image_svg env with
  | Except.error Error.ContentNotAvailable =>
    match image_png env with
    | Except.ok image => Except.ok image
    | Except.error Error.ContentNotAvailable => image_tiff env
    | Except.error e => Except.error e
  | result => result

/-- The inner item loop of `Get::formats` (`osx.rs` lines 322–403) for one
requested format: returns the values pushed into `results` and the
collected `file_urls`.  Pushing breaks the loop for every arm except
`FileUrl`, which keeps collecting; a non-`ContentNotAvailable` image error
and a failed `NSURL::URLWithString` break without pushing. -/
def innerLoop (env : Env) (format : ClipboardFormat) :
    List PBItem → List ClipboardData × List RStr
  | [] => ([], [])
  | it :: rest =>
    match format with
    | ClipboardFormat.Text =>
      match it.string NSPasteboardTypeString with
      | some s => ([ClipboardData.Text s], [])
      | none => innerLoop env format rest
    | ClipboardFormat.Rtf =>
      match it.string NSPasteboardTypeRTF with
      | some s => ([ClipboardData.Rtf s], [])
      | none => innerLoop env format rest
    | ClipboardFormat.Html =>
      match it.string NSPasteboardTypeHTML with
      | some s => ([ClipboardData.Html s], [])
      | none => innerLoop env format rest
    | ClipboardFormat.ImageRgba =>
      match image_tiff env with
      | Except.ok image => ([ClipboardData.Image image], [])
      | Except.error Error.ContentNotAvailable => innerLoop env format rest
      | Except.error _ => ([], [])
    | ClipboardFormat.ImagePng =>
      match image_png env with
      | Except.ok image => ([ClipboardData.Image image], [])
      | Except.error Error.ContentNotAvailable => innerLoop env format rest
      | Except.error _ => ([], [])
    | ClipboardFormat.ImageSvg =>
      match image_svg env with
      | Except.ok image => ([ClipboardData.Image image], [])
      | Except.error Error.ContentNotAvailable => innerLoop env format rest
      | Except.error _ => ([], [])
    | ClipboardFormat.FileUrl =>
      match it.string NSPasteboardTypeFileURL with
      | none => innerLoop env format rest
      | some urls =>
        match env.urlParse urls with
        | none => ([], [])
        | some none => innerLoop env format rest
        | some (some path) =>
          let (res, file_urls) := innerLoop env format rest
          (res, path :: file_urls)
    | ClipboardFormat.Special format_name =>
      match it.data format_name with
      | some d => ([ClipboardData.Special (format_name, d)], [])
      | none => innerLoop env format rest

/-- One outer-loop iteration of `Get::formats` (`osx.rs` lines 319–410):
run the item loop, then push the collected `FileUrl` list if nonempty, then
push `None` if nothing was pushed for this format. -/
def formatStep (env : Env) (contents : List PBItem) (format : ClipboardFormat) :
    List ClipboardData :=
  let pair := innerLoop env format contents
  let res := pair.1 ++ (if pair.2 = [] then [] else [ClipboardData.FileUrl pair.2])
  if res = [] then [ClipboardData.None] else res

/-- The outer loop of `Get::formats` over the requested formats. -/
def formatsGo (env : Env) (contents : List PBItem) :
    List ClipboardFormat → List ClipboardData
  | [] => []
  | format :: rest => formatStep env contents format ++ formatsGo env contents rest

/-- `Get::formats` (`osx.rs` lines 309–414): a null `pasteboardItems` is an
`Unknown` error; otherwise every requested format contributes its pushes. -/
def formats (env : Env) (requested : List ClipboardFormat) :
    Except Error (List ClipboardData) :=
  match env.pb.items with
  | none => Except.error (Error.Unknown "NSPasteboard#pasteboardItems errored")
  | some contents => Except.ok (formatsGo env contents requested)

end Get

namespace Set

/-- `Set::text_` (`osx.rs` lines 430–442): optional clear, then
`writeObjects` with one bare `NSString`. -/
def text_ (env : Env) (data : RStr) (clear : Bool) : List Op × Except Error Unit :=
  let pre := if clear then [Op.clearContents] else []
  let objs := [WObj.nsString data]
  let success := env.writeObjects objs
  (pre ++ [Op.writeObjects objs success],
   if success then Except.ok ()
   else Except.error (Error.Unknown "NSPasteboard#writeObjects: returned false"))

/-- `Set::text`. -/
def text (env : Env) (data : RStr) : List Op × Except Error Unit :=
  text_ env data true

/-- `Set::rtf_` (`osx.rs` lines 448–464). -/
def rtf_ (env : Env) (data : RStr) (clear : Bool) : List Op × Except Error Unit :=
  let pre := if clear then [Op.clearContents] else []
  let success := env.setString NSPasteboardTypeRTF data
  (pre ++ [Op.setString NSPasteboardTypeRTF data success],
   if success then Except.ok ()
   else Except.error (Error.Unknown "NSPasteboard#setString_forType: returned false"))

/-- `Set::rtf`. -/
def rtf (env : Env) (data : RStr) : List Op × Except Error Unit :=
  rtf_ env data true

/-- The UTF-8 charset wrapper head used by `Set::try_wrap_html`. -/
def wrapHead : RStr :=
  ("<html><head><meta http-equiv=\"content-type\" " ++
    "content=\"text/html; charset=utf-8\"></head><body>").toList.map Char.toNat

/-- The wrapper tail used by `Set::try_wrap_html`. -/
def wrapTail : RStr :=
  "</body></html>".toList.map Char.toNat

/-- `Set::try_wrap_html` (`osx.rs` lines 474–489). -/
def try_wrap_html (html : RStr) : RStr :=
  if startsWith wrapHead html then html else wrapHead ++ html ++ wrapTail

/-- `Set::html_` (`osx.rs` lines 491–520): optional clear, set the wrapped
HTML string, and on success also set the alternative text if given. -/
def html_ (env : Env) (html : RStr) (alt : Option RStr) (clear : Bool) :
    List Op × Except Error Unit :=
  let pre := if clear then [Op.clearContents] else []
  let wrapped := try_wrap_html html
  let s1 := env.setString NSPasteboardTypeHTML wrapped
  match alt with
  | some alt_text =>
    if s1 then
      let s2 := env.setString NSPasteboardTypeString alt_text
      (pre ++ [Op.setString NSPasteboardTypeHTML wrapped s1,
        Op.setString NSPasteboardTypeString alt_text s2],
       if s2 then Except.ok ()
       else Except.error (Error.Unknown "NSPasteboard#setString_forType: returned false"))
    else
      (pre ++ [Op.setString NSPasteboardTypeHTML wrapped s1],
       Except.error (Error.Unknown "NSPasteboard#setString_forType: returned false"))
  | none =>
    (pre ++ [Op.setString NSPasteboardTypeHTML wrapped s1],
     if s1 then Except.ok ()
     else Except.error (Error.Unknown "NSPasteboard#setString_forType: returned false"))

/-- `Set::html`. -/
def html (env : Env) (h : RStr) (alt : Option RStr) : List Op × Except Error Unit :=
  html_ env h alt true

/-- `Set::image_pixels` (`osx.rs` lines 534–554): optional clear, build an
`NSImage` from the raw pixels with `image_from_pixels`, and hand that
object to `writeObjects` — the buffer is not PNG-encoded. -/
def image_pixels (env : Env) (data : ImageRgba) (clear : Bool) :
    List Op × Except Error Unit :=
  let pre := if clear then [Op.clearContents] else []
  match image_from_pixels data.bytes data.width data.height with
  | Except.error _ => (pre, Except.error (intoUnknown "failed to get image from pixels"))
  | Except.ok image =>
    let objs := [image]
    let success := env.writeObjects objs
    (pre ++ [Op.writeObjects objs success],
     if success then Except.ok ()
     else Except.error
       (Error.Unknown "Failed to write the image to the pasteboard (writeObjects returned NO)."))

/-- `Set::image_png` (`osx.rs` lines 556–583): optional clear; a null
`NSData` is an error before any pasteboard write; otherwise one
`setData_forType`. -/
def image_png (env : Env) (data : RStr) (clear : Bool) : List Op × Except Error Unit :=
  let pre := if clear then [Op.clearContents] else []
  if env.dataWithBytes data then
    let success := env.setData NSPasteboardTypePNG data
    (pre ++ [Op.setData NSPasteboardTypePNG data success],
     if success then Except.ok ()
     else Except.error (Error.Unknown "Failed to write the PNG image to the pasteboard."))
  else (pre, Except.error (Error.Unknown "Failed to create NSData from bytes"))

/-- `Set::image_svg` (`osx.rs` lines 585–603). -/
def image_svg (env : Env) (data : RStr) (clear : Bool) : List Op × Except Error Unit :=
  let pre := if clear then [Op.clearContents] else []
  let success := env.setString NS_PASTEBOARD_TYPE_SVG data
  (pre ++ [Op.setString NS_PASTEBOARD_TYPE_SVG data success],
   if success then Except.ok ()
   else Except.error (Error.Unknown "Failed to write the SVG image to the pasteboard."))

/-- `Set::image_` (`osx.rs` lines 526–532): dispatch on the representation. -/
def image_ (env : Env) (data : ImageData) (clear : Bool) : List Op × Except Error Unit :=
  match data with
  | ImageData.Rgba data => image_pixels env data clear
  | ImageData.Png data => image_png env data clear
  | ImageData.Svg data => image_svg env data clear

/-- `Set::image`. -/
def image (env : Env) (data : ImageData) : List Op × Except Error Unit :=
  image_ env data true

/-- `Set::special_` (`osx.rs` lines 609–635). -/
def special_ (env : Env) (format_name : String) (data : RStr) (clear : Bool) :
    List Op × Except Error Unit :=
  let pre := if clear then [Op.clearContents] else []
  if env.dataWithBytes data then
    let success := env.setData format_name data
    (pre ++ [Op.setData format_name data success],
     if success then Except.ok ()
     else Except.error (Error.Unknown "NSPasteboard#setData_forType: returned false"))
  else (pre, Except.error (Error.Unknown "Failed to create NSData from bytes"))

/-- `Set::special`. -/
def special (env : Env) (format_name : String) (data : RStr) : List Op × Except Error Unit :=
  special_ env format_name data true

/-- The object-building loop of `Set::formats` (`osx.rs` lines 643–714):
every value is translated to a write object (raw-pixel `NSImage` for Rgba,
typed `NSPasteboardItem`s otherwise, one item per encoded URL for
`FileUrl`); a null `NSData` aborts; `None` (the `_` arm) contributes
nothing.  No format/value validation is performed. -/
def buildWriteObjects (env : Env) : List ClipboardData → Except Error (List WObj)
  | [] => Except.ok []
  | d :: rest =>
    let head : Except Error (List WObj) :=
      match d with
      | ClipboardData.Text s => Except.ok [WObj.itemString NSPasteboardTypeString s]
      | ClipboardData.Rtf s => Except.ok [WObj.itemString NSPasteboardTypeRTF s]
      | ClipboardData.Html s => Except.ok [WObj.itemString NSPasteboardTypeHTML s]
      | ClipboardData.Image (ImageData.Rgba data) =>
        match image_from_pixels data.bytes data.width data.height with
        | Except.error _ => Except.error (intoUnknown "failed to get rgba from pixels")
        | Except.ok image => Except.ok [image]
      | ClipboardData.Image (ImageData.Png data) =>
        if env.dataWithBytes data then Except.ok [WObj.itemData NSPasteboardTypePNG data]
        else Except.error (Error.Unknown "Failed to create NSData from bytes")
      | ClipboardData.Image (ImageData.Svg data) =>
        Except.ok [WObj.itemString NS_PASTEBOARD_TYPE_SVG data]
      | ClipboardData.FileUrl urls =>
        Except.ok (urls.map (fun url =>
          WObj.itemString NSPasteboardTypeFileURL (Osx.encode_path_to_uri url)))
      | ClipboardData.Special (format_name, data) =>
        if env.dataWithBytes data then Except.ok [WObj.itemData format_name data]
        else Except.error (Error.Unknown "Failed to create NSData from bytes")
      | ClipboardData.None => Except.ok []
    match head with
    | Except.error e => Except.error e
    | Except.ok hd =>
      match buildWriteObjects env rest with
      | Except.error e => Except.error e
      | Except.ok tl => Except.ok (hd ++ tl)

/-- `Set::formats` (`osx.rs` lines 637–725): unconditional clear first, then
build all write objects and issue a single `writeObjects`. -/
def formats (env : Env) (data : List ClipboardData) : List Op × Except Error Unit :=
  match buildWriteObjects env data with
  | Except.error e => ([Op.clearContents], Except.error e)
  | Except.ok objs =>
    let success := env.writeObjects objs
    ([Op.clearContents, Op.writeObjects objs success],
     if success then Except.ok ()
     else Except.error (Error.Unknown "NSPasteboard#writeObjects: returned false"))

end Set

end Osx

/-! ## Shared statement helpers -/

/-- Tag agreement between a requested format and a produced value
(spec §3's invariant): any of the three image requests yields an `Image`
value; a `Special` value carries the requested name. -/
def tagMatches : ClipboardFormat → ClipboardData → Prop
  | ClipboardFormat.Text, ClipboardData.Text _ => True
  | ClipboardFormat.Html, ClipboardData.Html _ => True
  | ClipboardFormat.Rtf, ClipboardData.Rtf _ => True
  | ClipboardFormat.ImageRgba, ClipboardData.Image _ => True
  | ClipboardFormat.ImagePng, ClipboardData.Image _ => True
  | ClipboardFormat.ImageSvg, ClipboardData.Image _ => True
  | ClipboardFormat.FileUrl, ClipboardData.FileUrl _ => True
  | ClipboardFormat.Special name, ClipboardData.Special pair => name = pair.1
  | _, _ => False

namespace Wayland

/-- The per-item read of a format came back `ContentNotAvailable`
("nothing there"), per the getter the `get_formats` arm for that format
calls. -/
def absent (env : WlEnv) (selection : LinuxClipboardKind) : ClipboardFormat → Prop
  | ClipboardFormat.Text => get_text env selection = Except.error Error.ContentNotAvailable
  | ClipboardFormat.Rtf => get_rtf env selection = Except.error Error.ContentNotAvailable
  | ClipboardFormat.Html => get_html env selection = Except.error Error.ContentNotAvailable
  | ClipboardFormat.ImageRgba =>
    get_image_rgba env selection = Except.error Error.ContentNotAvailable
  | ClipboardFormat.ImagePng =>
    get_image_png env selection = Except.error Error.ContentNotAvailable
  | ClipboardFormat.ImageSvg =>
    get_image_svg env selection = Except.error Error.ContentNotAvailable
  | ClipboardFormat.FileUrl =>
    get_url_list env selection = Except.error Error.ContentNotAvailable
  | ClipboardFormat.Special name =>
    get_special env name selection = Except.error Error.ContentNotAvailable

/-- The error the `get_formats` arm for a format records (`err = Some(e)` /
`err_count += 1`): the per-item read failed with something other than
`ContentNotAvailable`. -/
def recordedErr (env : WlEnv) (selection : LinuxClipboardKind) :
    ClipboardFormat → Option Error
  | ClipboardFormat.Text =>
    match get_text env selection with
    | Except.ok _ => none
    | Except.error Error.ContentNotAvailable => none
    | Except.error e => some e
  | ClipboardFormat.Rtf =>
    match get_rtf env selection with
    | Except.ok _ => none
    | Except.error Error.ContentNotAvailable => none
    | Except.error e => some e
  | ClipboardFormat.Html =>
    match get_html env selection with
    | Except.ok _ => none
    | Except.error Error.ContentNotAvailable => none
    | Except.error e => some e
  | ClipboardFormat.ImageRgba =>
    match get_image_rgba env selection with
    | Except.ok _ => none
    | Except.error Error.ContentNotAvailable => none
    | Except.error e => some e
  | ClipboardFormat.ImagePng =>
    match get_image_png env selection with
    | Except.ok _ => none
    | Except.error Error.ContentNotAvailable => none
    | Except.error e => some e
  | ClipboardFormat.ImageSvg =>
    match get_image_svg env selection with
    | Except.ok _ => none
    | Except.error Error.ContentNotAvailable => none
    | Except.error e => some e
  | ClipboardFormat.FileUrl =>
    match get_url_list env selection with
    | Except.ok _ => none
    | Except.error Error.ContentNotAvailable => none
    | Except.error e => some e
  | ClipboardFormat.Special name =>
    match get_special env name selection with
    | Except.ok _ => none
    | Except.error Error.ContentNotAvailable => none
    | Except.error e => some e

/-- An absent format contributes `None` and records nothing. -/
theorem getFormatsStep_absent (env : WlEnv) (selection : LinuxClipboardKind)
    (f : ClipboardFormat) (h : absent env selection f) :
    getFormatsStep env selection f = Except.ok (ClipboardData.None, none) := by
  cases f <;> (simp only [absent] at h; simp [getFormatsStep, h])

/-- Every value a step pushes is `None` or matches the requested tag. -/
theorem getFormatsStep_tag (env : WlEnv) (selection : LinuxClipboardKind)
    (f : ClipboardFormat) (d : ClipboardData) (rec : Option Error)
    (h : getFormatsStep env selection f = Except.ok (d, rec)) :
    d = ClipboardData.None ∨ tagMatches f d := by
  cases f <;>
    (simp only [getFormatsStep] at h) <;>
    (repeat' split at h) <;>
    (first
      | exact Except.noConfusion h
      | (simp only [Except.ok.injEq, Prod.mk.injEq] at h
         obtain ⟨rfl, rfl⟩ := h
         simp [tagMatches]))

/-- Except on `FileUrl`, a step never aborts and records exactly
`recordedErr`. -/
theorem getFormatsStep_rec (env : WlEnv) (selection : LinuxClipboardKind)
    (f : ClipboardFormat) (hf : f ≠ ClipboardFormat.FileUrl) :
    ∃ d, getFormatsStep env selection f = Except.ok (d, recordedErr env selection f) := by
  cases f <;> simp only [getFormatsStep, recordedErr] <;>
    (first
      | exact absurd rfl hf
      | (repeat' split) <;> exact ⟨_, rfl⟩)

/-- Loop invariant of `get_formats`: on a non-aborted run the result list is
1:1 positional with the request — same length, `None` at every absent
position, and a tag-matching value at every non-`None` position. -/
theorem getFormatsLoop_spec (env : WlEnv) (selection : LinuxClipboardKind) :
    ∀ (formats : List ClipboardFormat) (results : List ClipboardData)
      (err : Option Error) (count : Nat),
    getFormatsLoop env selection formats = Except.ok (results, err, count) →
    results.length = formats.length ∧
    ∀ (i : Nat) (h1 : i < formats.length) (h2 : i < results.length),
      (absent env selection (formats.get ⟨i, h1⟩) →
        results.get ⟨i, h2⟩ = ClipboardData.None) ∧
      (results.get ⟨i, h2⟩ ≠ ClipboardData.None →
        tagMatches (formats.get ⟨i, h1⟩) (results.get ⟨i, h2⟩)) := by
  intro formats
  induction formats with
  | nil =>
    intro results err count h
    simp only [getFormatsLoop, Except.ok.injEq, Prod.mk.injEq] at h
    obtain ⟨h1, _, _⟩ := h
    subst h1
    exact ⟨rfl, fun i h1 h2 => absurd h1 (by simp)⟩
  | cons f fs ih =>
    intro results err count h
    simp only [getFormatsLoop] at h
    cases hstep : getFormatsStep env selection f with
    | error e => rw [hstep] at h; exact Except.noConfusion h
    | ok pr =>
      obtain ⟨d, rec⟩ := pr
      rw [hstep] at h
      cases hloop : getFormatsLoop env selection fs with
      | error e => rw [hloop] at h; exact Except.noConfusion h
      | ok tr =>
        obtain ⟨res', err', cnt'⟩ := tr
        rw [hloop] at h
        simp only [Except.ok.injEq, Prod.mk.injEq] at h
        obtain ⟨hres, _, _⟩ := h
        subst hres
        obtain ⟨hlen, hpt⟩ := ih res' err' cnt' hloop
        refine ⟨by simp [hlen], ?_⟩
        intro i hi1 hi2
        cases i with
        | zero =>
          constructor
          · intro habs
            have hab := getFormatsStep_absent env selection f habs
            rw [hstep] at hab
            simp only [Except.ok.injEq, Prod.mk.injEq] at hab
            simpa using hab.1
          · intro hne
            rcases getFormatsStep_tag env selection f d rec hstep with hN | hT
            · exact absurd (by simpa using hN) hne
            · simpa using hT
        | succ n =>
          have hi1' : n < fs.length := by simpa using hi1
          have hi2' : n < res'.length := by simpa using hi2
          have := hpt n hi1' hi2'
          simpa using this

/-- `filterMap` preserves the length exactly when no element is dropped. -/
theorem filterMap_length_eq_iff {α β : Type} (g : α → Option β) :
    ∀ (l : List α), ((l.filterMap g).length = l.length) ↔ ∀ a ∈ l, g a ≠ none := by
  intro l
  induction l with
  | nil => simp
  | cons a l ih =>
    cases hg : g a with
    | none =>
      rw [List.filterMap_cons_none hg]
      constructor
      · intro h
        exfalso
        have hle := List.length_filterMap_le g l
        simp only [List.length_cons] at h
        omega
      · intro h
        exact absurd hg (h a (List.mem_cons_self a l))
    | some b =>
      rw [List.filterMap_cons_some hg]
      simp only [List.length_cons, Nat.add_right_cancel_iff, ih, List.mem_cons]
      constructor
      · intro h a' ha'
        rcases ha' with rfl | ha'
        · simp [hg]
        · exact h a' ha'
      · intro h a' ha'
        exact h a' (Or.inr ha')

/-- On a `FileUrl`-free request the loop never aborts: it returns a result
list of the request's length, the **last** recorded error (because `err` is
overwritten on every recorded error), and the recorded-error count. -/
theorem getFormatsLoop_noFileUrl (env : WlEnv) (selection : LinuxClipboardKind) :
    ∀ (formats : List ClipboardFormat),
    (∀ f ∈ formats, f ≠ ClipboardFormat.FileUrl) →
    ∃ results, getFormatsLoop env selection formats =
      Except.ok (results, (formats.filterMap (recordedErr env selection)).getLast?,
        (formats.filterMap (recordedErr env selection)).length) ∧
      results.length = formats.length := by
  intro formats
  induction formats with
  | nil => exact fun _ => ⟨[], rfl, rfl⟩
  | cons f fs ih =>
    intro h
    have hf : f ≠ ClipboardFormat.FileUrl := h f (List.mem_cons_self f fs)
    obtain ⟨d, hstep⟩ := getFormatsStep_rec env selection f hf
    obtain ⟨res', hloop, hlen⟩ := ih (fun g hg => h g (List.mem_cons_of_mem _ hg))
    refine ⟨d :: res', ?_, by simp [hlen]⟩
    simp only [getFormatsLoop, hstep, hloop]
    cases hR : recordedErr env selection f with
    | none =>
      rw [List.filterMap_cons_none hR]
      cases hT : (fs.filterMap (recordedErr env selection)).getLast? <;> simp [hT, hR]
    | some e =>
      rw [List.filterMap_cons_some hR]
      cases hTail : fs.filterMap (recordedErr env selection) with
      | nil => simp [hTail, hR]
      | cons x xs =>
        rw [List.getLast?_cons_cons]
        have hgl := List.getLast?_eq_getLast_of_ne_nil
          (show (x :: xs) ≠ [] from by simp)
        simp [hgl, hR]

end Wayland

/-- `findSome?` yields nothing exactly when the selector fails everywhere. -/
theorem findSome?_eq_none_iff {α β : Type} (f : α → Option β) :
    ∀ (l : List α), l.findSome? f = none ↔ ∀ a ∈ l, f a = none := by
  intro l
  induction l with
  | nil => simp [List.findSome?]
  | cons a l ih =>
    cases hf : f a with
    | some b => simp [List.findSome?_cons, hf]
    | none => simp [List.findSome?_cons, hf, ih]

namespace Osx

namespace Get

/-- The per-item read of a format came back `ContentNotAvailable` on the
macOS side, per the reader the `Get::formats` arm for that format uses. -/
def absent (env : Env) : ClipboardFormat → Prop
  | ClipboardFormat.Text =>
    plain env NSPasteboardTypeString = Except.error Error.ContentNotAvailable
  | ClipboardFormat.Rtf =>
    plain env NSPasteboardTypeRTF = Except.error Error.ContentNotAvailable
  | ClipboardFormat.Html =>
    plain env NSPasteboardTypeHTML = Except.error Error.ContentNotAvailable
  | ClipboardFormat.ImageRgba => image_tiff env = Except.error Error.ContentNotAvailable
  | ClipboardFormat.ImagePng => image_png env = Except.error Error.ContentNotAvailable
  | ClipboardFormat.ImageSvg => image_svg env = Except.error Error.ContentNotAvailable
  | ClipboardFormat.FileUrl =>
    ∀ it ∈ env.pb.items.getD [], it.string NSPasteboardTypeFileURL = none
  | ClipboardFormat.Special name =>
    special env name = Except.error Error.ContentNotAvailable

/-- Item-level absence, over the concrete item list the outer loop holds. -/
def absentItems (env : Env) (contents : List PBItem) : ClipboardFormat → Prop
  | ClipboardFormat.Text => ∀ it ∈ contents, it.string NSPasteboardTypeString = none
  | ClipboardFormat.Rtf => ∀ it ∈ contents, it.string NSPasteboardTypeRTF = none
  | ClipboardFormat.Html => ∀ it ∈ contents, it.string NSPasteboardTypeHTML = none
  | ClipboardFormat.ImageRgba => image_tiff env = Except.error Error.ContentNotAvailable
  | ClipboardFormat.ImagePng => image_png env = Except.error Error.ContentNotAvailable
  | ClipboardFormat.ImageSvg => image_svg env = Except.error Error.ContentNotAvailable
  | ClipboardFormat.FileUrl => ∀ it ∈ contents, it.string NSPasteboardTypeFileURL = none
  | ClipboardFormat.Special name => ∀ it ∈ contents, it.data name = none

/-- Getter-level absence gives item-level absence once `pasteboardItems`
has returned the concrete item list. -/
theorem absent_to_items (env : Env) (contents : List PBItem) (f : ClipboardFormat)
    (hitems : env.pb.items = some contents) (h : absent env f) :
    absentItems env contents f := by
  cases f
  case Text =>
    simp only [absent, plain, hitems] at h
    rcases hfs : contents.findSome? (fun it => it.string NSPasteboardTypeString) with _ | s
    · exact (findSome?_eq_none_iff _ contents).mp hfs
    · rw [hfs] at h; exact Except.noConfusion h
  case Rtf =>
    simp only [absent, plain, hitems] at h
    rcases hfs : contents.findSome? (fun it => it.string NSPasteboardTypeRTF) with _ | s
    · exact (findSome?_eq_none_iff _ contents).mp hfs
    · rw [hfs] at h; exact Except.noConfusion h
  case Html =>
    simp only [absent, plain, hitems] at h
    rcases hfs : contents.findSome? (fun it => it.string NSPasteboardTypeHTML) with _ | s
    · exact (findSome?_eq_none_iff _ contents).mp hfs
    · rw [hfs] at h; exact Except.noConfusion h
  case ImageRgba => exact h
  case ImagePng => exact h
  case ImageSvg => exact h
  case FileUrl =>
    simp only [absent, hitems, Option.getD_some] at h
    exact h
  case Special =>
    rename_i name
    simp only [absent, special, hitems] at h
    rcases hfs : contents.findSome? (fun it => it.data name) with _ | s
    · exact (findSome?_eq_none_iff _ contents).mp hfs
    · rw [hfs] at h; exact Except.noConfusion h

/-- An absent format makes the inner item loop push nothing and collect
nothing. -/
theorem innerLoop_absent (env : Env) (f : ClipboardFormat) :
    ∀ (contents : List PBItem), absentItems env contents f →
      innerLoop env f contents = ([], []) := by
  intro contents
  induction contents with
  | nil => intro _; cases f <;> rfl
  | cons it rest ih =>
    intro h
    have hrest : absentItems env rest f := by
      cases f <;> simp only [absentItems] at h ⊢ <;>
        first
          | exact fun x hx => h x (List.mem_cons_of_mem _ hx)
          | exact h
    have hhead := h
    cases f <;> simp only [absentItems] at hhead <;> simp only [innerLoop]
    case Text => rw [hhead it (List.mem_cons_self it rest)]; exact ih hrest
    case Rtf => rw [hhead it (List.mem_cons_self it rest)]; exact ih hrest
    case Html => rw [hhead it (List.mem_cons_self it rest)]; exact ih hrest
    case ImageRgba => rw [hhead]; exact ih hrest
    case ImagePng => rw [hhead]; exact ih hrest
    case ImageSvg => rw [hhead]; exact ih hrest
    case FileUrl => rw [hhead it (List.mem_cons_self it rest)]; exact ih hrest
    case Special => rw [hhead it (List.mem_cons_self it rest)]; exact ih hrest

/-- The inner loop pushes at most one value, and any pushed value matches
the requested tag. -/
theorem innerLoop_fst (env : Env) (f : ClipboardFormat) :
    ∀ (contents : List PBItem),
      (innerLoop env f contents).1 = [] ∨
      ∃ d, (innerLoop env f contents).1 = [d] ∧ tagMatches f d := by
  intro contents
  induction contents with
  | nil => left; cases f <;> rfl
  | cons it rest ih =>
    cases f <;> simp only [innerLoop]
    case Text =>
      cases hs : it.string NSPasteboardTypeString
      · exact ih
      · right; exact ⟨_, rfl, trivial⟩
    case Rtf =>
      cases hs : it.string NSPasteboardTypeRTF
      · exact ih
      · right; exact ⟨_, rfl, trivial⟩
    case Html =>
      cases hs : it.string NSPasteboardTypeHTML
      · exact ih
      · right; exact ⟨_, rfl, trivial⟩
    case ImageRgba =>
      rcases himg : image_tiff env with e | img
      · cases e
        case ContentNotAvailable => exact ih
        all_goals (left; rfl)
      · right; exact ⟨_, rfl, trivial⟩
    case ImagePng =>
      rcases himg : image_png env with e | img
      · cases e
        case ContentNotAvailable => exact ih
        all_goals (left; rfl)
      · right; exact ⟨_, rfl, trivial⟩
    case ImageSvg =>
      rcases himg : image_svg env with e | img
      · cases e
        case ContentNotAvailable => exact ih
        all_goals (left; rfl)
      · right; exact ⟨_, rfl, trivial⟩
    case FileUrl =>
      cases hs : it.string NSPasteboardTypeFileURL
      · exact ih
      · rename_i urls
        rcases hu : env.urlParse urls with _ | op
        · left; simp [hu]
        · rcases op with _ | path
          · simp only [hu]; exact ih
          · simp only [hu]
            rcases ih with h1 | ⟨d, hd, ht⟩
            · left; simpa using h1
            · right; exact ⟨d, by simpa using hd, ht⟩
    case Special =>
      rename_i name
      cases hs : it.data name
      · exact ih
      · right; exact ⟨_, rfl, by simp [tagMatches]⟩

/-- Only the `FileUrl` arm collects `file_urls`. -/
theorem innerLoop_snd (env : Env) (f : ClipboardFormat)
    (hf : f ≠ ClipboardFormat.FileUrl) :
    ∀ (contents : List PBItem), (innerLoop env f contents).2 = [] := by
  intro contents
  induction contents with
  | nil => cases f <;> rfl
  | cons it rest ih =>
    cases f <;> simp only [innerLoop]
    case Text => cases hs : it.string NSPasteboardTypeString <;> simp [ih]
    case Rtf => cases hs : it.string NSPasteboardTypeRTF <;> simp [ih]
    case Html => cases hs : it.string NSPasteboardTypeHTML <;> simp [ih]
    case ImageRgba =>
      rcases himg : image_tiff env with e | img
      · cases e <;> first | exact ih | rfl
      · rfl
    case ImagePng =>
      rcases himg : image_png env with e | img
      · cases e <;> first | exact ih | rfl
      · rfl
    case ImageSvg =>
      rcases himg : image_svg env with e | img
      · cases e <;> first | exact ih | rfl
      · rfl
    case FileUrl => exact absurd rfl hf
    case Special => rename_i name; cases hs : it.data name <;> simp [ih]

/-- The `FileUrl` arm never pushes into `results` directly. -/
theorem innerLoop_fileurl_fst (env : Env) :
    ∀ (contents : List PBItem),
      (innerLoop env ClipboardFormat.FileUrl contents).1 = [] := by
  intro contents
  induction contents with
  | nil => rfl
  | cons it rest ih =>
    simp only [innerLoop]
    cases hs : it.string NSPasteboardTypeFileURL
    · exact ih
    · rename_i urls
      rcases hu : env.urlParse urls with _ | op
      · simp [hu]
      · rcases op with _ | path
        · simp only [hu]; exact ih
        · simp only [hu]; simpa using ih

/-- Each outer-loop iteration pushes exactly one value; a non-`None` push
matches the requested tag. -/
theorem formatStep_singleton (env : Env) (contents : List PBItem) (f : ClipboardFormat) :
    ∃ d, formatStep env contents f = [d] ∧
      (d ≠ ClipboardData.None → tagMatches f d) := by
  simp only [formatStep]
  by_cases hf : f = ClipboardFormat.FileUrl
  · subst hf
    rw [innerLoop_fileurl_fst env contents]
    cases hsnd : (innerLoop env ClipboardFormat.FileUrl contents).2 with
    | nil => exact ⟨ClipboardData.None, by simp, fun h => absurd rfl h⟩
    | cons x xs =>
      refine ⟨ClipboardData.FileUrl (x :: xs), by simp, fun _ => trivial⟩
  · rw [innerLoop_snd env f hf contents]
    rcases innerLoop_fst env f contents with h1 | ⟨d, hd, ht⟩
    · rw [h1]
      exact ⟨ClipboardData.None, by simp, fun h => absurd rfl h⟩
    · rw [hd]
      refine ⟨d, by simp, fun _ => ht⟩

/-- An absent format contributes exactly `None`. -/
theorem formatStep_absent (env : Env) (contents : List PBItem) (f : ClipboardFormat)
    (h : absentItems env contents f) :
    formatStep env contents f = [ClipboardData.None] := by
  simp only [formatStep]
  rw [innerLoop_absent env f contents h]
  simp

/-- The outer loop of `Get::formats` is 1:1 positional with the request:
same length, `None` at absent positions, tag-matching values elsewhere. -/
theorem formatsGo_spec (env : Env) (contents : List PBItem) :
    ∀ (fs : List ClipboardFormat) (results : List ClipboardData),
      formatsGo env contents fs = results →
      results.length = fs.length ∧
      ∀ (i : Nat) (h1 : i < fs.length) (h2 : i < results.length),
        (absentItems env contents (fs.get ⟨i, h1⟩) →
          results.get ⟨i, h2⟩ = ClipboardData.None) ∧
        (results.get ⟨i, h2⟩ ≠ ClipboardData.None →
          tagMatches (fs.get ⟨i, h1⟩) (results.get ⟨i, h2⟩)) := by
  intro fs
  induction fs with
  | nil =>
    intro results h
    simp only [formatsGo] at h
    subst h
    exact ⟨rfl, fun i h1 h2 => absurd h1 (by simp)⟩
  | cons f fs ih =>
    intro results h
    obtain ⟨d, hd, ht⟩ := formatStep_singleton env contents f
    simp only [formatsGo, hd, List.cons_append, List.nil_append] at h
    obtain ⟨hlen, hpt⟩ := ih (formatsGo env contents fs) rfl
    subst h
    refine ⟨by simp [hlen], ?_⟩
    intro i h1 h2
    cases i with
    | zero =>
      constructor
      · intro habs
        have habs2 := formatStep_absent env contents f (by simpa using habs)
        rw [hd] at habs2
        simp only [List.cons.injEq] at habs2
        simpa using habs2.1
      · intro hne
        have : d ≠ ClipboardData.None := by simpa using hne
        simpa using ht this
    | succ n =>
      have h1' : n < fs.length := by simpa using h1
      have h2' : n < (formatsGo env contents fs).length := by simpa using h2
      have hp := hpt n h1' h2'
      constructor
      · intro habs
        simpa using hp.1 (by simpa using habs)
      · intro hne
        simpa using hp.2 (by simpa using hne)

end Get

end Osx

namespace Wayland

/-- A successful `get_formats` call comes from a successful, non-aborted
loop over the same result list. -/
theorem get_formats_ok_loop (env : WlEnv) (formats : List ClipboardFormat)
    (selection : LinuxClipboardKind) (results : List ClipboardData)
    (h : get_formats env formats selection = Except.ok results) :
    ∃ err count, getFormatsLoop env selection formats = Except.ok (results, err, count) := by
  unfold get_formats at h
  split at h
  · exact Except.noConfusion h
  · rename_i r e c heq
    split at h
    · split at h
      · exact Except.noConfusion h
      · simp only [Except.ok.injEq] at h
        subst h
        exact ⟨_, _, heq⟩
    · simp only [Except.ok.injEq] at h
      subst h
      exact ⟨_, _, heq⟩

end Wayland

/-- C2: on both backends a non-failing `get_formats` returns a result
sequence of exactly the request's length, 1:1 positional with it, and a
requested format whose per-item read yields `ContentNotAvailable`
contributes `ClipboardData::None` at its position without failing the
call. -/
theorem c2_positional :
    (∀ (env : WlEnv) (selection : LinuxClipboardKind) (formats : List ClipboardFormat)
        (results : List ClipboardData),
      Wayland.get_formats env formats selection = Except.ok results →
      results.length = formats.length ∧
      ∀ (i : Nat) (h1 : i < formats.length) (h2 : i < results.length),
        Wayland.absent env selection (formats.get ⟨i, h1⟩) →
          results.get ⟨i, h2⟩ = ClipboardData.None)
    ∧ (∀ (env : Osx.Env) (requested : List ClipboardFormat) (results : List ClipboardData),
      Osx.Get.formats env requested = Except.ok results →
      results.length = requested.length ∧
      ∀ (i : Nat) (h1 : i < requested.length) (h2 : i < results.length),
        Osx.Get.absent env (requested.get ⟨i, h1⟩) →
          results.get ⟨i, h2⟩ = ClipboardData.None) := by
  constructor
  · intro env selection formats results h
    obtain ⟨err, count, hloop⟩ :=
      Wayland.get_formats_ok_loop env formats selection results h
    obtain ⟨hlen, hpt⟩ :=
      Wayland.getFormatsLoop_spec env selection formats results err count hloop
    exact ⟨hlen, fun i h1 h2 => (hpt i h1 h2).1⟩
  · intro env requested results h
    unfold Osx.Get.formats at h
    cases hitems : env.pb.items with
    | none => rw [hitems] at h; exact Except.noConfusion h
    | some contents =>
      rw [hitems] at h
      simp only [Except.ok.injEq] at h
      obtain ⟨hlen, hpt⟩ := Osx.Get.formatsGo_spec env contents requested results h
      refine ⟨hlen, fun i h1 h2 habs => (hpt i h1 h2).1 ?_⟩
      exact Osx.Get.absent_to_items env contents (requested.get ⟨i, h1⟩) hitems habs

/-- C4: on both backends every non-`None` value a `get_formats` read
produces carries the tag of the format requested at its position (image
requests yield `Image` values, a `Special(name)` request yields a `Special`
value with that very name, and so on). -/
theorem c4_tag_invariant :
    (∀ (env : WlEnv) (selection : LinuxClipboardKind) (formats : List ClipboardFormat)
        (results : List ClipboardData),
      Wayland.get_formats env formats selection = Except.ok results →
      ∀ (i : Nat) (h1 : i < formats.length) (h2 : i < results.length),
        results.get ⟨i, h2⟩ ≠ ClipboardData.None →
          tagMatches (formats.get ⟨i, h1⟩) (results.get ⟨i, h2⟩))
    ∧ (∀ (env : Osx.Env) (requested : List ClipboardFormat) (results : List ClipboardData),
      Osx.Get.formats env requested = Except.ok results →
      ∀ (i : Nat) (h1 : i < requested.length) (h2 : i < results.length),
        results.get ⟨i, h2⟩ ≠ ClipboardData.None →
          tagMatches (requested.get ⟨i, h1⟩) (results.get ⟨i, h2⟩)) := by
  constructor
  · intro env selection formats results h i h1 h2
    obtain ⟨err, count, hloop⟩ :=
      Wayland.get_formats_ok_loop env formats selection results h
    obtain ⟨_, hpt⟩ :=
      Wayland.getFormatsLoop_spec env selection formats results err count hloop
    exact (hpt i h1 h2).2
  · intro env requested results h i h1 h2
    unfold Osx.Get.formats at h
    cases hitems : env.pb.items with
    | none => rw [hitems] at h; exact Except.noConfusion h
    | some contents =>
      rw [hitems] at h
      simp only [Except.ok.injEq] at h
      obtain ⟨_, hpt⟩ := Osx.Get.formatsGo_spec env contents requested results h
      exact (hpt i h1 h2).2

/-- A session whose clipboard is empty for every MIME type. -/
def envWlEmpty : WlEnv :=
  { getContents := fun _ _ => WlPasteResult.clipboardEmpty,
    copy := fun _ _ _ => WlCopyResult.ok,
    copyMulti := fun _ _ _ => WlCopyResult.ok,
    encodeAsPng := fun _ => Except.ok [],
    decodeFromPng := fun _ => Except.error Error.ConversionFailure }

/-- A session holding only the plain text `"hi"`. -/
def envWlText : WlEnv :=
  { getContents := fun _ mime =>
      match mime with
      | WlMime.text => WlPasteResult.ok (Except.ok [0x68, 0x69])
      | WlMime.specific _ => WlPasteResult.clipboardEmpty,
    copy := fun _ _ _ => WlCopyResult.ok,
    copyMulti := fun _ _ _ => WlCopyResult.ok,
    encodeAsPng := fun _ => Except.ok [],
    decodeFromPng := fun _ => Except.error Error.ConversionFailure }

/-- A session whose text read fails with one opaque error and whose every
other read fails with a different one. -/
def envWlBoom : WlEnv :=
  { getContents := fun _ mime =>
      match mime with
      | WlMime.text => WlPasteResult.otherErr "text boom"
      | WlMime.specific _ => WlPasteResult.otherErr "rtf boom",
    copy := fun _ _ _ => WlCopyResult.ok,
    copyMulti := fun _ _ _ => WlCopyResult.ok,
    encodeAsPng := fun _ => Except.ok [],
    decodeFromPng := fun _ => Except.error Error.ConversionFailure }

/-- C2 (witness): the positional theorem applied to a concrete empty-
clipboard call with one requested format. -/
theorem c2_positional_witness :
    ([ClipboardData.None] : List ClipboardData).length =
      [ClipboardFormat.Text].length :=
  (c2_positional.1 envWlEmpty LinuxClipboardKind.Clipboard [ClipboardFormat.Text]
    [ClipboardData.None] rfl).1

/-- C4 (witness): the tag invariant applied to a concrete call that reads
the text `"hi"`. -/
theorem c4_tag_witness :
    tagMatches ClipboardFormat.Text (ClipboardData.Text [0x68, 0x69]) := by
  have h := c4_tag_invariant.1 envWlText LinuxClipboardKind.Clipboard
    [ClipboardFormat.Text] [ClipboardData.Text [0x68, 0x69]] rfl 0 (by decide) (by decide)
  simpa using h (by decide)

/-- C1 (counterexample): with requested formats `[Text, Rtf]` whose reads
record the opaque errors `"text boom"` and `"rtf boom"` in that order, the
call surfaces the *last* recorded error (`err` is overwritten on every
recorded error), not the first one as claimed. -/
theorem c1_counterexample :
    Wayland.get_text envWlBoom LinuxClipboardKind.Clipboard =
        Except.error (Error.Unknown "text boom") ∧
      Wayland.get_rtf envWlBoom LinuxClipboardKind.Clipboard =
        Except.error (Error.Unknown "rtf boom") ∧
      Wayland.get_formats envWlBoom [ClipboardFormat.Text, ClipboardFormat.Rtf]
          LinuxClipboardKind.Clipboard =
        Except.error (Error.Unknown "rtf boom") ∧
      Error.Unknown "rtf boom" ≠ Error.Unknown "text boom" :=
  ⟨rfl, rfl, rfl, by decide⟩

/-- C1 (amended): for a non-empty request containing no `FileUrl` format,
`get_formats` fails exactly when every requested item produced a recorded
error (a `ContentNotAvailable` read still counts as success), and the error
surfaced then is the **last** recorded error of the batch.  (A `FileUrl`
request whose wire text fails to decode additionally aborts the whole call
with that decode error regardless of the other items, which is why
`FileUrl` is excluded here.) -/
theorem c1_aggregate_amended (env : WlEnv) (selection : LinuxClipboardKind)
    (formats : List ClipboardFormat) (hne : formats ≠ [])
    (hnf : ∀ f ∈ formats, f ≠ ClipboardFormat.FileUrl) :
    ((∃ e, Wayland.get_formats env formats selection = Except.error e) ↔
      ∀ f ∈ formats, Wayland.recordedErr env selection f ≠ none)
    ∧ ∀ e, Wayland.get_formats env formats selection = Except.error e →
      (formats.filterMap (Wayland.recordedErr env selection)).getLast? = some e := by
  obtain ⟨results, hloop, hlen⟩ :=
    Wayland.getFormatsLoop_noFileUrl env selection formats hnf
  have hiff := Wayland.filterMap_length_eq_iff (Wayland.recordedErr env selection) formats
  have hgf : Wayland.get_formats env formats selection =
      (if (formats.filterMap (Wayland.recordedErr env selection)).length = formats.length
       then
        match (formats.filterMap (Wayland.recordedErr env selection)).getLast? with
        | some e => Except.error e
        | none => Except.ok results
       else Except.ok results) := by
    unfold Wayland.get_formats
    rw [hloop]
  by_cases hc :
      (formats.filterMap (Wayland.recordedErr env selection)).length = formats.length
  · have hall : ∀ f ∈ formats, Wayland.recordedErr env selection f ≠ none := hiff.mp hc
    have hfm_ne : formats.filterMap (Wayland.recordedErr env selection) ≠ [] := by
      cases formats with
      | nil => exact absurd rfl hne
      | cons f fs =>
        have hf := hall f (List.mem_cons_self f fs)
        cases hr : Wayland.recordedErr env selection f with
        | none => exact absurd hr hf
        | some e => rw [List.filterMap_cons_some hr]; simp
    have hgl := List.getLast?_eq_getLast_of_ne_nil hfm_ne
    rw [if_pos hc, hgl] at hgf
    constructor
    · constructor
      · intro _; exact hall
      · intro _; exact ⟨_, hgf⟩
    · intro e he
      rw [hgf] at he
      injection he with h'
      rw [hgl, h']
  · rw [if_neg hc] at hgf
    constructor
    · constructor
      · intro ⟨e, he⟩
        rw [hgf] at he
        exact Except.noConfusion he
      · intro hall
        exact absurd (hiff.mpr hall) hc
    · intro e he
      rw [hgf] at he
      exact Except.noConfusion he

/-- C1 (witness): the amended aggregation applied to the concrete
all-erroring call `[Text]`, concluding that the call fails. -/
theorem c1_aggregate_witness :
    ∃ e, Wayland.get_formats envWlBoom [ClipboardFormat.Text]
      LinuxClipboardKind.Clipboard = Except.error e :=
  (c1_aggregate_amended envWlBoom LinuxClipboardKind.Clipboard [ClipboardFormat.Text]
    (by decide) (by decide)).1.mpr (by decide)

/-- C3: on both backends the generic image read tries SVG first; exactly a
`ContentNotAvailable` outcome falls through to the PNG representation, a
successful SVG read or any other SVG error is returned as is, without the
PNG result influencing it. -/
theorem c3_image_preference :
    (∀ (env : WlEnv) (selection : LinuxClipboardKind),
      (∀ img, Wayland.get_image_svg env selection = Except.ok img →
        Wayland.get_image env selection = Except.ok img) ∧
      (∀ e, Wayland.get_image_svg env selection = Except.error e →
        e ≠ Error.ContentNotAvailable →
        Wayland.get_image env selection = Except.error e) ∧
      (Wayland.get_image_svg env selection = Except.error Error.ContentNotAvailable →
        Wayland.get_image env selection = Wayland.get_image_png env selection))
    ∧ (∀ (env : Osx.Env),
      (∀ img, Osx.Get.image_svg env = Except.ok img →
        Osx.Get.image env = Except.ok img) ∧
      (∀ e, Osx.Get.image_svg env = Except.error e → e ≠ Error.ContentNotAvailable →
        Osx.Get.image env = Except.error e) ∧
      (Osx.Get.image_svg env = Except.error Error.ContentNotAvailable →
        (∀ img, Osx.Get.image_png env = Except.ok img →
          Osx.Get.image env = Except.ok img) ∧
        (∀ e, Osx.Get.image_png env = Except.error e → e ≠ Error.ContentNotAvailable →
          Osx.Get.image env = Except.error e))) := by
  constructor
  · intro env selection
    refine ⟨?_, ?_, ?_⟩
    · intro img h
      unfold Wayland.get_image
      rw [h]
    · intro e h hne
      unfold Wayland.get_image
      rw [h]
      cases e <;> first | rfl | exact absurd rfl hne
    · intro h
      unfold Wayland.get_image
      rw [h]
  · intro env
    refine ⟨?_, ?_, ?_⟩
    · intro img h
      unfold Osx.Get.image
      rw [h]
    · intro e h hne
      unfold Osx.Get.image
      rw [h]
      cases e <;> first | rfl | exact absurd rfl hne
    · intro h
      constructor
      · intro img hp
        unfold Osx.Get.image
        rw [h, hp]
      · intro e hp hne
        unfold Osx.Get.image
        rw [h, hp]
        cases e <;> first | rfl | exact absurd rfl hne

/-- C3 (witness): the preference policy applied to a concrete session whose
SVG read fails with an opaque error — the error is surfaced directly. -/
theorem c3_image_witness :
    Wayland.get_image envWlBoom LinuxClipboardKind.Clipboard =
      Except.error (Error.Unknown "rtf boom") :=
  (c3_image_preference.1 envWlBoom LinuxClipboardKind.Clipboard).2.1
    (Error.Unknown "rtf boom") rfl (by decide)

namespace Wayland

/-- Inversion of one `set_formats` source-building step. -/
theorem buildSources_cons (env : WlEnv) (item : ClipboardData)
    (rest : List ClipboardData) (sources : List MimeSource)
    (h : buildSources env (item :: rest) = Except.ok sources) :
    ∃ hd tl, sources = hd ++ tl ∧ buildSources env rest = Except.ok tl ∧
      (∀ img, item = ClipboardData.Image (ImageData.Rgba img) →
        ∃ png, env.encodeAsPng img = Except.ok png ∧
          hd = [png_to_mime_source png]) := by
  simp only [buildSources] at h
  split at h
  · exact Except.noConfusion h
  · rename_i hd heq
    split at h
    · exact Except.noConfusion h
    · rename_i tl heq2
      simp only [Except.ok.injEq] at h
      refine ⟨hd, tl, h.symm, heq2, ?_⟩
      intro img hitem
      subst hitem
      have heq' : (match env.encodeAsPng img with
          | Except.error e => Except.error e
          | Except.ok png => Except.ok [png_to_mime_source png]) = Except.ok hd := heq
      split at heq'
      · exact Except.noConfusion heq'
      · rename_i png henc
        simp only [Except.ok.injEq] at heq'
        exact ⟨png, henc, heq'.symm⟩

/-- Every Rgba value in a `set_formats` batch that builds successfully had
its pixels PNG-encoded, and the resulting PNG source is among the sources
handed to the single native write. -/
theorem buildSources_rgba_mem (env : WlEnv) :
    ∀ (data : List ClipboardData) (sources : List MimeSource) (img : ImageRgba),
      buildSources env data = Except.ok sources →
      ClipboardData.Image (ImageData.Rgba img) ∈ data →
      ∃ png, env.encodeAsPng img = Except.ok png ∧
        MimeSource.mk png (WlMime.specific "image/png") ∈ sources := by
  intro data
  induction data with
  | nil => intro sources img _ hmem; simp at hmem
  | cons item rest ih =>
    intro sources img h hmem
    obtain ⟨hd, tl, hsrc, hrest, hrgba⟩ := buildSources_cons env item rest sources h
    subst hsrc
    rcases List.mem_cons.mp hmem with heq | hmem'
    · obtain ⟨png, henc, hhd⟩ := hrgba img heq.symm
      exact ⟨png, henc, by simp [hhd, png_to_mime_source]⟩
    · obtain ⟨png, henc, hmem2⟩ := ih tl img hrest hmem'
      exact ⟨png, henc, List.mem_append.mpr (Or.inr hmem2)⟩

/-- Source building never fails as long as the Rgba encodings succeed: no
value combination is rejected. -/
theorem buildSources_total (env : WlEnv) :
    ∀ (data : List ClipboardData),
      (∀ img, ClipboardData.Image (ImageData.Rgba img) ∈ data →
        ∃ png, env.encodeAsPng img = Except.ok png) →
      ∃ sources, buildSources env data = Except.ok sources := by
  intro data
  induction data with
  | nil => exact fun _ => ⟨[], rfl⟩
  | cons item rest ih =>
    intro hAll
    obtain ⟨tl, htl⟩ := ih (fun img hm => hAll img (List.mem_cons_of_mem _ hm))
    cases hb : buildSources env (item :: rest) with
    | ok s => exact ⟨s, rfl⟩
    | error e =>
      exfalso
      rcases item with t | ht | r | imgd | urls | sp | _
      case Image =>
        rcases imgd with i | p | s
        case Rgba =>
          obtain ⟨png, hpng⟩ := hAll i (List.mem_cons_self _ _)
          simp only [buildSources, hpng, htl] at hb
          exact Except.noConfusion hb
        case Png =>
          simp only [buildSources, htl] at hb
          exact Except.noConfusion hb
        case Svg =>
          simp only [buildSources, htl] at hb
          exact Except.noConfusion hb
      all_goals
        simp only [buildSources, htl] at hb
      all_goals
        exact Except.noConfusion hb

end Wayland

namespace Osx

/-- Write-object building never fails when `NSData` creation succeeds: no
value combination is rejected and no tag validation exists. -/
theorem buildWriteObjects_total (env : Env) (hdb : ∀ b, env.dataWithBytes b = true) :
    ∀ (data : List ClipboardData),
      ∃ objs, Set.buildWriteObjects env data = Except.ok objs := by
  intro data
  induction data with
  | nil => exact ⟨[], rfl⟩
  | cons item rest ih =>
    obtain ⟨tl, htl⟩ := ih
    cases hb : Set.buildWriteObjects env (item :: rest) with
    | ok s => exact ⟨s, rfl⟩
    | error e =>
      exfalso
      rcases item with t | ht | r | imgd | urls | sp | _
      case Image =>
        rcases imgd with i | p | s
        case Rgba =>
          simp only [Set.buildWriteObjects, image_from_pixels, htl] at hb
          exact Except.noConfusion hb
        case Png =>
          simp only [Set.buildWriteObjects, hdb p, if_true, htl] at hb
          exact Except.noConfusion hb
        case Svg =>
          simp only [Set.buildWriteObjects, htl] at hb
          exact Except.noConfusion hb
      case Special =>
        obtain ⟨name, d⟩ := sp
        simp only [Set.buildWriteObjects, hdb d, if_true, htl] at hb
        exact Except.noConfusion hb
      all_goals
        simp only [Set.buildWriteObjects, htl] at hb
      all_goals
        exact Except.noConfusion hb

/-- A pasteboard-operation trace that removes the existing contents first
and never clears (or restores) again afterwards. -/
def startsWithClear (t : List Op) : Prop :=
  t.head? = some Op.clearContents ∧ Op.clearContents ∉ t.tail

end Osx

/-- A macOS session whose native calls all succeed and whose pasteboard is
empty. -/
def envOsxOk : Osx.Env :=
  { pb := { items := some [], stringForType := fun _ => none, dataForType := fun _ => none },
    decodeTiff := fun _ => Except.error "no tiff",
    urlParse := fun _ => none,
    writeObjects := fun _ => true,
    setString := fun _ _ => true,
    setData := fun _ _ => true,
    dataWithBytes := fun _ => true }

/-- C7 (counterexample): the batched write performs no format/value tag
validation and cannot — it receives only the values, no paired formats.
Pairing the value `Html "h"` with the format `Text` (a mismatch under the
claim) does not fail fast: the macOS `Set::formats` clears and issues the
native `writeObjects` with the translated HTML item, and the call
succeeds. -/
theorem c7_counterexample :
    (Osx.Set.formats envOsxOk [ClipboardData.Html [0x68]]).1 =
        [Osx.Op.clearContents,
          Osx.Op.writeObjects [Osx.WObj.itemString Osx.NSPasteboardTypeHTML [0x68]] true] ∧
      (Osx.Set.formats envOsxOk [ClipboardData.Html [0x68]]).2 = Except.ok () :=
  ⟨rfl, rfl⟩

/-- C7 (amended): `set_formats` on both backends receives only the values
(no paired formats) and validates nothing: every batch in which the Rgba
encodings (wayland) resp. the `NSData` creations (macOS) succeed is
translated in full and handed to the single native write, whatever the
values' tags are. -/
theorem c7_no_validation_amended :
    (∀ (env : WlEnv) (data : List ClipboardData) (selection : LinuxClipboardKind)
        (wait : WaitConfig),
      (∀ img, ClipboardData.Image (ImageData.Rgba img) ∈ data →
        ∃ png, env.encodeAsPng img = Except.ok png) →
      ∃ sources, Wayland.buildSources env data = Except.ok sources ∧
        Wayland.set_formats env data selection wait =
          Wayland.set_multi_source env sources selection wait)
    ∧ (∀ (env : Osx.Env) (data : List ClipboardData),
      (∀ b, env.dataWithBytes b = true) →
      ∃ objs, Osx.Set.buildWriteObjects env data = Except.ok objs ∧
        (Osx.Set.formats env data).1 =
          [Osx.Op.clearContents, Osx.Op.writeObjects objs (env.writeObjects objs)] ∧
        ((Osx.Set.formats env data).2 = Except.ok () ↔ env.writeObjects objs = true)) := by
  constructor
  · intro env data selection wait hAll
    obtain ⟨sources, hb⟩ := Wayland.buildSources_total env data hAll
    refine ⟨sources, hb, ?_⟩
    unfold Wayland.set_formats
    rw [hb]
  · intro env data hdb
    obtain ⟨objs, hb⟩ := Osx.buildWriteObjects_total env hdb data
    refine ⟨objs, hb, ?_, ?_⟩
    · simp only [Osx.Set.formats, hb]
    · simp only [Osx.Set.formats, hb]
      cases hw : env.writeObjects objs <;> simp [hw]

/-- C7 (witness): the amended statement applied to a concrete one-item
batch on the all-succeeding macOS session. -/
theorem c7_no_validation_witness :
    ∃ objs, Osx.Set.buildWriteObjects envOsxOk [ClipboardData.Text [0x61]] =
        Except.ok objs ∧
      (Osx.Set.formats envOsxOk [ClipboardData.Text [0x61]]).1 =
        [Osx.Op.clearContents, Osx.Op.writeObjects objs (envOsxOk.writeObjects objs)] ∧
      ((Osx.Set.formats envOsxOk [ClipboardData.Text [0x61]]).2 = Except.ok () ↔
        envOsxOk.writeObjects objs = true) :=
  c7_no_validation_amended.2 envOsxOk [ClipboardData.Text [0x61]] (fun _ => rfl)

/-- C8 (counterexample): on the macOS backend a raw Rgba write is *not*
PNG-encoded: `Set::image_pixels` hands the native `writeObjects` an image
object built by `image_from_pixels` directly from the raw pixel buffer
`[9, 9, 9, 9]`, and the call succeeds without any PNG conversion. -/
theorem c8_counterexample :
    (Osx.Set.image_pixels envOsxOk (ImageRgba.mk 1 1 [9, 9, 9, 9]) true).1 =
        [Osx.Op.clearContents,
          Osx.Op.writeObjects [Osx.WObj.image [9, 9, 9, 9] 1 1] true] ∧
      (Osx.Set.image_pixels envOsxOk (ImageRgba.mk 1 1 [9, 9, 9, 9]) true).2 =
        Except.ok () :=
  ⟨rfl, rfl⟩

/-- C8 (amended): on the wayland backend every Rgba write — through
`set_image` or `set_formats` — hands the native session PNG bytes produced
by `encode_as_png` (an encoding failure aborts the call), never the raw
pixels; on the macOS backend the raw pixel buffer is wrapped into a native
image object and handed to `writeObjects` directly, without PNG encoding. -/
theorem c8_rgba_png_amended :
    (∀ (env : WlEnv) (img : ImageRgba) (selection : LinuxClipboardKind)
        (wait : WaitConfig),
      Wayland.set_image env (ImageData.Rgba img) selection wait =
        Wayland.set_image_rgba env img selection wait ∧
      (∀ png, env.encodeAsPng img = Except.ok png →
        Wayland.set_image_rgba env img selection wait =
          Wayland.set_source env (MimeSource.mk png (WlMime.specific "image/png"))
            selection wait) ∧
      (∀ e, env.encodeAsPng img = Except.error e →
        Wayland.set_image_rgba env img selection wait = Except.error e))
    ∧ (∀ (env : WlEnv) (data : List ClipboardData) (sources : List MimeSource)
        (img : ImageRgba),
      Wayland.buildSources env data = Except.ok sources →
      ClipboardData.Image (ImageData.Rgba img) ∈ data →
      ∃ png, env.encodeAsPng img = Except.ok png ∧
        MimeSource.mk png (WlMime.specific "image/png") ∈ sources)
    ∧ (∀ (env : Osx.Env) (img : ImageRgba) (clear : Bool),
      (Osx.Set.image_pixels env img clear).1 =
        (if clear then [Osx.Op.clearContents] else []) ++
          [Osx.Op.writeObjects [Osx.WObj.image img.bytes img.width img.height]
            (env.writeObjects [Osx.WObj.image img.bytes img.width img.height])]) := by
  refine ⟨?_, Wayland.buildSources_rgba_mem, ?_⟩
  · intro env img selection wait
    refine ⟨rfl, ?_, ?_⟩
    · intro png hpng
      unfold Wayland.set_image_rgba
      rw [hpng]
      exact rfl
    · intro e he
      unfold Wayland.set_image_rgba
      rw [he]
  · intro env img clear
    rfl

/-- C8 (witness): the encoded-PNG membership applied to a concrete
one-image batch. -/
theorem c8_rgba_png_witness :
    ∃ png, envWlEmpty.encodeAsPng (ImageRgba.mk 1 1 [9, 9, 9, 9]) = Except.ok png ∧
      MimeSource.mk png (WlMime.specific "image/png") ∈
        [Wayland.png_to_mime_source []] :=
  c8_rgba_png_amended.2.1 envWlEmpty
    [ClipboardData.Image (ImageData.Rgba (ImageRgba.mk 1 1 [9, 9, 9, 9]))]
    [Wayland.png_to_mime_source []] (ImageRgba.mk 1 1 [9, 9, 9, 9]) rfl
    (List.mem_singleton.mpr rfl)

/-- C10: every macOS set operation — text, RTF, HTML, image (all three
representations), special, and the batched `set_formats` — clears the
entire pasteboard before attempting the native write: its native-call trace
starts with `clearContents` and never clears (or restores the previous
contents) afterwards, whatever the outcome of the write, so a failed write
leaves the pasteboard cleared. -/
theorem c10_clear_before_write (env : Osx.Env) :
    (∀ data, Osx.startsWithClear (Osx.Set.text env data).1) ∧
    (∀ data, Osx.startsWithClear (Osx.Set.rtf env data).1) ∧
    (∀ h alt, Osx.startsWithClear (Osx.Set.html env h alt).1) ∧
    (∀ img, Osx.startsWithClear (Osx.Set.image env img).1) ∧
    (∀ name data, Osx.startsWithClear (Osx.Set.special env name data).1) ∧
    (∀ data, Osx.startsWithClear (Osx.Set.formats env data).1) := by
  refine ⟨?_, ?_, ?_, ?_, ?_, ?_⟩
  · intro data
    simp [Osx.Set.text, Osx.Set.text_, Osx.startsWithClear]
  · intro data
    simp [Osx.Set.rtf, Osx.Set.rtf_, Osx.startsWithClear]
  · intro h alt
    cases alt with
    | none => simp [Osx.Set.html, Osx.Set.html_, Osx.startsWithClear]
    | some a =>
      by_cases hs : env.setString Osx.NSPasteboardTypeHTML (Osx.Set.try_wrap_html h) = true
      · simp [Osx.Set.html, Osx.Set.html_, Osx.startsWithClear, hs]
      · simp only [Bool.not_eq_true] at hs
        simp [Osx.Set.html, Osx.Set.html_, Osx.startsWithClear, hs]
  · intro img
    cases img with
    | Rgba i =>
      simp [Osx.Set.image, Osx.Set.image_, Osx.Set.image_pixels, Osx.image_from_pixels,
        Osx.startsWithClear]
    | Png p =>
      by_cases hd : env.dataWithBytes p = true
      · simp [Osx.Set.image, Osx.Set.image_, Osx.Set.image_png, Osx.startsWithClear, hd]
      · simp only [Bool.not_eq_true] at hd
        simp [Osx.Set.image, Osx.Set.image_, Osx.Set.image_png, Osx.startsWithClear, hd]
    | Svg s =>
      simp [Osx.Set.image, Osx.Set.image_, Osx.Set.image_svg, Osx.startsWithClear]
  · intro name data
    by_cases hd : env.dataWithBytes data = true
    · simp [Osx.Set.special, Osx.Set.special_, Osx.startsWithClear, hd]
    · simp only [Bool.not_eq_true] at hd
      simp [Osx.Set.special, Osx.Set.special_, Osx.startsWithClear, hd]
  · intro data
    cases hb : Osx.Set.buildWriteObjects env data with
    | error e => simp [Osx.Set.formats, hb, Osx.startsWithClear]
    | ok objs => simp [Osx.Set.formats, hb, Osx.startsWithClear]
